import Mathlib

/-!
# Streaming query client (`client/app.js`)

A shallow embedding of the Server-Sent-Events decoder `parseSseChunk` and of the
`sendQuery` / `stopQuery` session logic, followed by the properties established
about them.

JavaScript strings are modelled as lists of characters.  Platform built-ins whose
behaviour is not defined in the repository (`JSON.parse`, coercions of parsed values)
are parameters of the definitions that use them.
-/

namespace SseClient

/-- A JavaScript string value. -/
abbrev JsString := List Char

/-! ## String built-ins used by the decoder -/

/-- Put a character in front of the first segment of a split. -/
def consHead (c : Char) : List JsString → List JsString
  | [] => [[c]]
  | seg :: segs => (c :: seg) :: segs

/-- Left-to-right scan of `String.prototype.split` for a non-empty separator `sep`.
The counter is the number of separator characters still to be skipped after a match. -/
def splitAux (sep : JsString) : Nat → JsString → List JsString
  | _, [] => [[]]
  | skip + 1, _ :: rest => splitAux sep skip rest
  | 0, c :: rest =>
    if sep.isPrefixOf (c :: rest) then [] :: splitAux sep (sep.length - 1) rest
    else consHead c (splitAux sep 0 rest)

/-- The value of `s.split(sep)` for a non-empty separator: the separator is searched from
the left, matches do not overlap, and the pieces between matches are returned in order. -/
def jsSplit (s sep : JsString) : List JsString := splitAux sep 0 s

/-- The value of `s.startsWith(p)`. -/
def jsStartsWith (s p : JsString) : Bool := p.isPrefixOf s

/-- The value of `s.replace(pat, rep)` for a string pattern and a replacement without `$`:
only the first occurrence of `pat` is replaced. -/
def jsReplace (pat rep : JsString) : JsString → JsString
  | [] => if pat.isPrefixOf [] then rep else []
  | c :: rest =>
    if pat.isPrefixOf (c :: rest) then rep ++ (c :: rest).drop pat.length
    else c :: jsReplace pat rep rest

/-- The code points removed by `String.prototype.trim`: ECMAScript WhiteSpace and
LineTerminator. -/
def isJsWhitespace (c : Char) : Bool :=
  let n := c.toNat
  n = 0x09 || n = 0x0A || n = 0x0B || n = 0x0C || n = 0x0D || n = 0x20 || n = 0xA0 ||
  n = 0x1680 || (0x2000 ≤ n && n ≤ 0x200A) || n = 0x2028 || n = 0x2029 || n = 0x202F ||
  n = 0x205F || n = 0x3000 || n = 0xFEFF

/-- The value of `s.trim()`. -/
def jsTrim (s : JsString) : JsString :=
  ((s.dropWhile isJsWhitespace).reverse.dropWhile isJsWhitespace).reverse

/-! ## `parseSseChunk` -/

/-- The frame terminator `"\n\n"`. -/
def frameSep : JsString := ['\n', '\n']

/-- The line separator `"\n"`. -/
def lineSep : JsString := ['\n']

/-- The marker `"event:"`. -/
def eventMarker : JsString := ['e', 'v', 'e', 'n', 't', ':']

/-- The marker `"data:"`. -/
def dataMarker : JsString := ['d', 'a', 't', 'a', ':']

/-- The two variables `event` and `data` of the loop body of `parseSseChunk`. -/
structure FrameVars where
  event : JsString
  data : JsString
  deriving DecidableEq, Repr

/-- The callback passed to `forEach` over the lines of a frame (lines 86-92). -/
def parseLine (vars : FrameVars) (line : JsString) : FrameVars :=
  if jsStartsWith line eventMarker then
    { vars with event := jsTrim (jsReplace eventMarker [] line) }
  else if jsStartsWith line dataMarker then
    { vars with data := vars.data ++ jsTrim (jsReplace dataMarker [] line) }
  else vars

/-- The variables after the `forEach` over `raw.split("\n")` (lines 84-92). -/
def parseFrame (raw : JsString) : FrameVars :=
  (jsSplit raw lineSep).foldl parseLine { event := ['m', 'e', 's', 's', 'a', 'g', 'e'], data := [] }

/-- What a run of `parseSseChunk` can change: the state `σ` the callback works on, and the
frames reported through `console.error` (each entry is the `data` that was logged). -/
structure Env (σ : Type) where
  state : σ
  console : List JsString

/-- The callback `onEvent`: it receives the event name and the parsed payload, updates the
state, and tells whether it raised (the state changes made before raising persist). -/
abbrev Handler (P σ : Type) := JsString → P → σ → σ × Bool

/-- One iteration of `for (const raw of events)` (lines 83-100).  `parse` is `JSON.parse`,
`none` standing for a raised `SyntaxError`.  The `try` covers both the parse and the
callback, so an exception of either is caught and logged. -/
def dispatchFrame {P σ : Type} (parse : JsString → Option P) (onEvent : Handler P σ)
    (env : Env σ) (raw : JsString) : Env σ :=
  let vars := parseFrame raw
  if vars.data = [] then env
  else
    match parse vars.data with
    | none => { env with console := env.console ++ [vars.data] }
    | some payload =>
      let r := onEvent vars.event payload env.state
      if r.2 then { state := r.1, console := env.console ++ [vars.data] }
      else { state := r.1, console := env.console }

/-- The function `parseSseChunk(buffer, onEvent)` (lines 79-103): the environment after the
loop and the returned remainder. -/
def parseSseChunk {P σ : Type} (parse : JsString → Option P) (buffer : JsString)
    (onEvent : Handler P σ) (env : Env σ) : Env σ × JsString :=
  let events := jsSplit buffer frameSep
  (events.dropLast.foldl (dispatchFrame parse onEvent) env, events.getLastD [])

/-- A decoded event: the name and the parsed payload handed to the callback. -/
abbrev Event (P : Type) := JsString × P

/-- A callback that only records its invocations. -/
def record {P : Type} : Handler P (List (Event P)) :=
  fun name payload log => (log ++ [(name, payload)], false)

/-- The decode step of the read loop (lines 141-142), `buffer += chunk` followed by
`parseSseChunk(buffer, ...)`, seen as a function: the events handed to the callback, in
order, and the remainder. -/
def decode {P : Type} (parse : JsString → Option P) (buffer chunk : JsString) :
    List (Event P) × JsString :=
  let r := parseSseChunk parse (buffer ++ chunk) record { state := [], console := [] }
  (r.1.state, r.2)

/-- The callback invocation one frame gives rise to, if any (lines 84-95): none when the
accumulated data is empty or `JSON.parse` raises. -/
def frameEvent {P : Type} (parse : JsString → Option P) (raw : JsString) : Option (Event P) :=
  let vars := parseFrame raw
  if vars.data = [] then none
  else (parse vars.data).map (fun payload => (vars.event, payload))

/-! ### Reference definition of a frame's fields, following the specification -/

/-- The text of a line after a marker it begins with. -/
def textAfter (marker line : JsString) : JsString := line.drop marker.length

/-- Reference: the event name of a frame is the trimmed text after the `event:` marker of
the last line that starts with `event:`, or `"message"` if no line does. -/
def refEventName (raw : JsString) : JsString :=
  match ((jsSplit raw lineSep).filter (fun line => eventMarker.isPrefixOf line)).getLast? with
  | none => ['m', 'e', 's', 's', 'a', 'g', 'e']
  | some line => jsTrim (textAfter eventMarker line)

/-- Reference: the data of a frame is the concatenation, in line order and without a
separator, of the trimmed text after the `data:` marker of each line that starts with
`data:`. -/
def refData (raw : JsString) : JsString :=
  (((jsSplit raw lineSep).filter (fun line => dataMarker.isPrefixOf line)).map
    (fun line => jsTrim (textAfter dataMarker line))).flatten

/-- Reference: the events of a list of complete frames; a frame with empty data gives none. -/
def refEvents {P : Type} (parse : JsString → Option P) (frames : List JsString) :
    List (Event P) :=
  frames.filterMap (fun raw =>
    if refData raw = [] then none
    else (parse (refData raw)).map (fun payload => (refEventName raw, payload)))

/-- A complete frame as it appears on the wire before its terminator: it contains no
frame terminator and does not end with a newline. -/
def CompleteFrame (f : JsString) : Prop :=
  ¬ frameSep <:+: f ∧ f.getLast? ≠ some '\n'

instance : DecidablePred CompleteFrame := fun f => by
  unfold CompleteFrame
  infer_instance

/-- The input made of the given frames, each followed by the frame terminator. -/
def framed (frames : List JsString) : JsString :=
  (frames.map (fun f => f ++ frameSep)).flatten

/-- The data a frame has reported through `console.error` because `JSON.parse` raised on
it (lines 94-98), if any. -/
def parseFailure {P : Type} (parse : JsString → Option P) (raw : JsString) : Option JsString :=
  let vars := parseFrame raw
  if vars.data = [] then none
  else
    match parse vars.data with
    | none => some vars.data
    | some _ => none

/-- The length of the run of newlines that ends a string. -/
def trailingNewlines (s : JsString) : Nat :=
  (s.reverse.takeWhile (fun c => c == '\n')).length

/-- The update a callback makes for one event, whether or not it raises. -/
def applyEvent {P σ : Type} (onEvent : Handler P σ) (s : σ) (e : Event P) : σ :=
  (onEvent e.1 e.2 s).1


/-! ## The page state and `sendQuery`

The globals of the script and the parts of the page they drive are gathered in `Client`.
An `AbortController` is named by its creation number.  Each call of `sendQuery` that is
suspended at an `await` is a `Task`; the inputs of the page (clicks, the keyboard shortcut,
the health button, the settling of a promise, an animation frame) resume the script one
synchronous stretch at a time. -/

/-- The role of a conversation message. -/
inductive Role where
  | user
  | assistant
  deriving DecidableEq, Repr

/-- An entry of `messages`. -/
structure Message where
  role : Role
  content : JsString
  deriving DecidableEq, Repr

/-- The operations of the platform on the values returned by `JSON.parse`, as far as the
callback of `sendQuery` uses them. -/
structure Platform (V : Type) where
  /-- The call `JSON.parse(text)`; `none` when it raises. -/
  parse : JsString → Option V
  /-- The read `payload.citations`: `none` when the read raises (a `null` payload),
  `some none` for `undefined`. -/
  citationsOf : V → Option (Option V)
  /-- The read `payload.token`, with the same convention. -/
  tokenOf : V → Option (Option V)
  /-- Truthiness of a value, as tested by `||`. -/
  truthy : V → Bool
  /-- Whether a value is `null`, as tested by `??`. -/
  isNull : V → Bool
  /-- The elements `forEach` visits when the value is an array; `none` when the value has
  no callable `forEach`. -/
  items : V → Option (List V)
  /-- Whether the template of `renderCitations` evaluates on this element without raising. -/
  renders : V → Bool
  /-- The string appended by `content += value`; `none` when the conversion raises. -/
  text : V → Option JsString

/-- A call of `fetch` made by `sendQuery` (lines 123-128). -/
structure Request where
  url : JsString
  query : JsString
  top_k : Int
  history : List Message
  signal : Nat
  deriving DecidableEq, Repr

/-- The globals of the script (lines 12-16) and the page elements it writes. -/
structure Client (V : Type) where
  /-- The global `controller`: the current `AbortController`, if any. -/
  controller : Option Nat
  /-- Whether `startTime` has been set. -/
  startTime : Bool
  /-- The global `timerHandle`: the animation frame requested last, unless `stopTimer`
  has cancelled it. -/
  timerHandle : Option Nat
  /-- The animation frames requested and neither run nor cancelled. -/
  frames : List Nat
  /-- The number of animation frames requested so far. -/
  requested : Nat
  messages : List Message
  pendingAssistantIndex : Option Nat
  /-- The text of the status badge, `statusBadge.textContent`. -/
  statusText : String
  /-- The variant class of the status badge. -/
  statusVariant : String
  /-- The flag `sendButton.disabled`. -/
  sendDisabled : Bool
  /-- The citations shown in `citationsEl`, in order. -/
  citations : List V
  /-- The controllers on which `abort()` has been called. -/
  aborted : List Nat
  /-- The number of controllers created so far. -/
  created : Nat
  /-- The requests issued so far, oldest first. -/
  requests : List Request

/-- The function `setStatus(text, variant)` (lines 18-22). -/
def setStatus {V : Type} (text variant : String) (c : Client V) : Client V :=
  { c with statusText := text, statusVariant := variant }

/-- The statement `timerHandle = requestAnimationFrame(updateTimer)` (lines 26 and 40);
the handles are the positive integers in the order of the requests. -/
def requestFrame {V : Type} (c : Client V) : Client V :=
  { c with
    timerHandle := some (c.requested + 1)
    frames := c.frames ++ [c.requested + 1]
    requested := c.requested + 1 }

/-- The function `startTimer()` (lines 24-27). -/
def startTimer {V : Type} (c : Client V) : Client V :=
  requestFrame { c with startTime := true }

/-- The function `stopTimer()` (lines 29-34). -/
def stopTimer {V : Type} (c : Client V) : Client V :=
  match c.timerHandle with
  | none => c
  | some handle =>
    { c with frames := c.frames.filter (fun f => f ≠ handle), timerHandle := none }

/-- The function `updateTimer()` (lines 36-41); the text of the timer is not modelled. -/
def updateTimer {V : Type} (c : Client V) : Client V :=
  if c.startTime then requestFrame c else c

/-- The function `clearResponse()` (lines 43-45). -/
def clearResponse {V : Type} (c : Client V) : Client V :=
  { c with citations := [] }

/-- The function `renderCitations(citations)` (lines 60-77).  The argument is `none` for the
empty array literal of `payload.citations || []`.  The element is emptied first; the
citations are appended one by one, and an element whose template raises stops the loop. -/
def renderCitations {V : Type} (pf : Platform V) (citations : Option V) (c : Client V) :
    Client V × Bool :=
  match citations with
  | none => ({ c with citations := [] }, false)
  | some v =>
    match pf.items v with
    | none => ({ c with citations := [] }, true)
    | some xs => ({ c with citations := xs.takeWhile pf.renders }, !xs.all pf.renders)

/-- The value of `payload.citations || []`, given the result of the read: `none` is the
empty array literal. -/
def citationsOrEmpty {V : Type} (pf : Platform V) (field : Option V) : Option V :=
  match field with
  | none => none
  | some v => if pf.truthy v then some v else none

/-- The string appended for `payload.token ?? ""`, given the result of the read; `none`
when converting the value to a string raises. -/
def tokenOperand {V : Type} (pf : Platform V) (field : Option V) : Option JsString :=
  match field with
  | none => some []
  | some v => if pf.isNull v then some [] else pf.text v

/-- The statement `messages[pendingAssistantIndex].content += payload.token ?? ""`
(line 147), followed by `renderTranscript()`. -/
def appendToken {V : Type} (pf : Platform V) (i : Nat) (payload : V) (c : Client V) :
    Client V × Bool :=
  match c.messages[i]? with
  | none => (c, true)
  | some m =>
    match pf.tokenOf payload with
    | none => (c, true)
    | some field =>
      match tokenOperand pf field with
      | none => (c, true)
      | some t =>
        ({ c with messages := c.messages.set i { m with content := m.content ++ t } }, false)

/-- The callback passed to `parseSseChunk` by the read loop (lines 142-153). -/
def onEvent {V : Type} (pf : Platform V) : Handler V (Client V) := fun event payload c =>
  if event = "citations".toList then
    match pf.citationsOf payload with
    | none => (c, true)
    | some field => renderCitations pf (citationsOrEmpty pf field) c
  else if event = "token".toList then
    match c.pendingAssistantIndex with
    | none => (c, false)
    | some i => appendToken pf i payload c
  else if event = "done".toList then
    (setStatus "Done" "ok" c, false)
  else (c, false)

/-- Where a suspended call of `sendQuery` waits: at `await fetch(...)`, or at
`await reader.read()` with the local `buffer`. -/
inductive Phase where
  | fetching
  | reading (buffer : JsString)
  deriving DecidableEq, Repr

/-- A suspended call of `sendQuery`; `signal` is the controller whose signal it handed to
`fetch`, which also names the call. -/
structure Task where
  signal : Nat
  phase : Phase
  deriving DecidableEq, Repr

/-- The script between two inputs: the globals, the suspended calls of `sendQuery`, the
`console.error` log (the data of the frames reported by `parseSseChunk` and the messages of
the errors reported by `checkHealth`), and the number of calls of `checkHealth` that await
their result. -/
structure World (V : Type) where
  client : Client V
  tasks : List Task
  console : List JsString
  checks : Nat

/-- The values of the three input fields when `sendQuery` reads them; `topK` is the result
of `parseInt(topKInput.value, 10)`, `none` standing for `NaN`. -/
structure Fields where
  serverUrl : JsString
  topK : Option Int
  question : JsString

/-- How a transport promise awaited by `sendQuery` settles. -/
inductive Resumption where
  /-- The promise of `fetch` resolves with a response. -/
  | response (ok hasBody : Bool) (status : Nat) (statusText : JsString)
  /-- The awaited promise rejects with an error carrying this message. -/
  | rejected (message : JsString)
  /-- The promise of `reader.read()` resolves with a chunk, given as decoded text. -/
  | chunk (text : JsString)
  /-- The promise of `reader.read()` resolves with `done`. -/
  | done

/-- An input of the page. -/
inductive Input where
  /-- A click on the send button. -/
  | clickSend (fields : Fields)
  /-- A `keydown` in the question field. -/
  | keydown (metaKey : Bool) (key : String) (fields : Fields)
  /-- A click on the stop button. -/
  | clickStop
  /-- The promise awaited by the call named `signal` settles. -/
  | transport (signal : Nat) (r : Resumption)
  /-- A click on the health button, with the value of the server address field. -/
  | clickHealth (serverUrl : JsString)
  /-- A call of `checkHealth` receives its answer: `rendered` is the value of the
  interpolation of `json.status` in the status text, `isOk` that of `json.status === "ok"`. -/
  | healthSettled (rendered : String) (isOk : Bool)
  /-- The `try` of a call of `checkHealth` raises an error carrying this message. -/
  | healthFailed (message : JsString)
  /-- The browser runs the animation frame callback requested under this handle. -/
  | animationFrame (handle : Nat)

/-- The value of `parseInt(topKInput.value, 10) || 5`. -/
def topKOrDefault (parsed : Option Int) : Int :=
  match parsed with
  | none => 5
  | some n => if n = 0 then 5 else n

/-- The synchronous start of `sendQuery` up to `await fetch(...)` (lines 105-128). -/
def sendQuery {V : Type} (fields : Fields) (w : World V) : World V :=
  let serverUrl := jsTrim fields.serverUrl
  let topK := topKOrDefault fields.topK
  let query := jsTrim fields.question
  if serverUrl = [] ∨ query = [] then w
  else
    let c := w.client
    let historySnapshot := c.messages
    let messages := (c.messages ++ [{ role := Role.user, content := query }])
      ++ [{ role := Role.assistant, content := [] }]
    let c := { c with messages := messages, pendingAssistantIndex := some (messages.length - 1) }
    let fresh := c.created
    let c := { c with controller := some fresh, created := fresh + 1, sendDisabled := true }
    let c := startTimer (clearResponse (setStatus "Streaming..." "ok" c))
    let request : Request :=
      { url := serverUrl ++ "/query".toList, query := query, top_k := topK,
        history := historySnapshot, signal := fresh }
    { w with
      client := { c with requests := c.requests ++ [request] }
      tasks := w.tasks ++ [{ signal := fresh, phase := Phase.fetching }] }

/-- The function `stopQuery()` (lines 173-177). -/
def stopQuery {V : Type} (c : Client V) : Client V :=
  match c.controller with
  | none => c
  | some k => { c with aborted := k :: c.aborted }

/-- The `catch` block of `sendQuery` (lines 155-164) for an error with the given message.
When `controller` is `null` the test `controller.signal.aborted` raises and the block is
left at once. -/
def catchBlock {V : Type} (message : JsString) (c : Client V) : Client V :=
  match c.controller with
  | none => c
  | some k =>
    if k ∈ c.aborted then setStatus "Stopped" "warn" c
    else
      let c := setStatus "Error" "error" c
      match c.pendingAssistantIndex with
      | none => c
      | some i =>
        match c.messages[i]? with
        | none => c
        | some m =>
          { c with messages := c.messages.set i { m with content := "Error: ".toList ++ message } }

/-- The `finally` block of `sendQuery` (lines 165-170). -/
def finallyBlock {V : Type} (c : Client V) : Client V :=
  let c := stopTimer { c with sendDisabled := false }
  { c with controller := none, pendingAssistantIndex := none }

/-- The message of the error thrown at line 131. -/
def requestFailed (status : Nat) (statusText : JsString) : JsString :=
  "Request failed: ".toList ++ (toString status).toList ++ " ".toList ++ statusText

/-- The error raised inside the `try` of `sendQuery`, if any, when a call waiting in
`phase` is resumed by `r`. -/
def failure (phase : Phase) (r : Resumption) : Option JsString :=
  match phase, r with
  | Phase.fetching, Resumption.response ok hasBody status statusText =>
    if !ok || !hasBody then some (requestFailed status statusText) else none
  | _, Resumption.rejected message => some message
  | _, _ => none

/-- Replace the phase of the call named `signal`. -/
def setPhase {V : Type} (signal : Nat) (phase : Phase) (w : World V) : World V :=
  { w with tasks := w.tasks.map (fun t => if t.signal = signal then { t with phase := phase } else t) }

/-- Remove the call named `signal`, which has run to its end. -/
def finish {V : Type} (signal : Nat) (w : World V) : World V :=
  { w with tasks := w.tasks.filter (fun t => t.signal ≠ signal) }

/-- One synchronous stretch of a suspended call of `sendQuery` (lines 123-170), from the
settling of the promise it awaits to its next `await` or to its end. -/
def resume {V : Type} (pf : Platform V) (w : World V) (t : Task) (r : Resumption) : World V :=
  match failure t.phase r with
  | some message =>
    finish t.signal { w with client := finallyBlock (catchBlock message w.client) }
  | none =>
    match t.phase, r with
    | Phase.fetching, Resumption.response _ _ _ _ => setPhase t.signal (Phase.reading []) w
    | Phase.reading buffer, Resumption.chunk text =>
      let res := parseSseChunk pf.parse (buffer ++ text) (onEvent pf)
        { state := w.client, console := w.console }
      setPhase t.signal (Phase.reading res.2)
        { w with client := res.1.state, console := res.1.console }
    | Phase.reading _, Resumption.done =>
      finish t.signal { w with client := finallyBlock w.client }
    | _, _ => w

/-- The synchronous start of `checkHealth` up to `await fetch(...)` (lines 179-183). -/
def checkHealth {V : Type} (serverUrl : JsString) (w : World V) : World V :=
  if jsTrim serverUrl = [] then w else { w with checks := w.checks + 1 }

/-- The end of the `try` block of `checkHealth` (lines 184-186). -/
def healthResult {V : Type} (rendered : String) (isOk : Bool) (w : World V) : World V :=
  { w with
    checks := w.checks - 1
    client := setStatus ("Health: " ++ rendered) (if isOk then "ok" else "warn") w.client }

/-- The `catch` block of `checkHealth` (lines 187-190). -/
def healthError {V : Type} (message : JsString) (w : World V) : World V :=
  { w with
    checks := w.checks - 1
    client := setStatus "Health error" "error" w.client
    console := w.console ++ [message] }

/-- The reaction of the script to one input (lines 193-200 for the listeners).  A click on
the disabled send button is not delivered; an answer finds a call of `checkHealth` only if
one is waiting, and an animation frame runs only if it is still requested. -/
def step {V : Type} (pf : Platform V) (w : World V) : Input → World V
  | Input.clickSend fields => if w.client.sendDisabled then w else sendQuery fields w
  | Input.keydown metaKey key fields =>
    if metaKey && key == "Enter" then sendQuery fields w else w
  | Input.clickStop => { w with client := stopQuery w.client }
  | Input.transport signal r =>
    match w.tasks.find? (fun t => t.signal = signal) with
    | none => w
    | some t => resume pf w t r
  | Input.clickHealth serverUrl => checkHealth serverUrl w
  | Input.healthSettled rendered isOk =>
    if w.checks = 0 then w else healthResult rendered isOk w
  | Input.healthFailed message => if w.checks = 0 then w else healthError message w
  | Input.animationFrame handle =>
    if handle ∈ w.client.frames then
      { w with client :=
          updateTimer { w.client with frames := w.client.frames.filter (fun f => f ≠ handle) } }
    else w

/-- The script after a sequence of inputs. -/
def run {V : Type} (pf : Platform V) (w : World V) (inputs : List Input) : World V :=
  inputs.foldl (step pf) w

/-- The script after it has loaded (lines 12-16 and 202).  The markup of the page is not
among the sources; the send button is taken as enabled, the default of a button. -/
def initialWorld {V : Type} : World V :=
  { client :=
      { controller := none, startTime := false, timerHandle := none, frames := [],
        requested := 0, messages := [], pendingAssistantIndex := none, statusText := "Idle",
        statusVariant := "warn", sendDisabled := false, citations := [], aborted := [],
        created := 0, requests := [] }
    tasks := []
    console := []
    checks := 0 }

/-! ## Vocabulary of the statements about a turn -/

/-- The text a decoded event appends to the open assistant message: for a `token` event,
the operand of `+=` at line 147, and nothing when evaluating it raises; nothing for any
other event. -/
def tokenText {V : Type} (pf : Platform V) (e : Event V) : JsString :=
  if e.1 = "token".toList then
    match pf.tokenOf e.2 with
    | none => []
    | some field => (tokenOperand pf field).getD []
  else []

/-- The citations shown once `renderCitations(payload.citations || [])` has run on a
payload; `none` when the read `payload.citations` raises, so that nothing is rendered. -/
def shownCitations {V : Type} (pf : Platform V) (payload : V) : Option (List V) :=
  match pf.citationsOf payload with
  | none => none
  | some field =>
    match citationsOrEmpty pf field with
    | none => some []
    | some v =>
      match pf.items v with
      | none => some []
      | some xs => some (xs.takeWhile pf.renders)

/-- The citations rendered for the most recent `citations` event of a sequence whose
payload could be read, if there is one. -/
def latestCitations {V : Type} (pf : Platform V) (events : List (Event V)) : Option (List V) :=
  (events.filterMap (fun e =>
    if e.1 = "citations".toList then shownCitations pf e.2 else none)).getLast?

/-- Whether a `done` event occurs in a sequence of decoded events. -/
def doneDecoded {V : Type} (events : List (Event V)) : Bool :=
  events.any (fun e => decide (e.1 = "done".toList))

/-- Whether the fields hold a query that `sendQuery` accepts (line 109). -/
def Fields.valid (fields : Fields) : Bool :=
  !(jsTrim fields.serverUrl).isEmpty && !(jsTrim fields.question).isEmpty

/-- Whether an input starts a turn through the keyboard listener (lines 196-200): the
shortcut is pressed and the fields hold a valid query. -/
def Input.shortcutStart : Input → Bool
  | Input.keydown metaKey key fields => metaKey && key == "Enter" && fields.valid
  | _ => false

/-- Whether, along a sequence of inputs, every start through the keyboard listener is made
while no call of `sendQuery` is in flight. -/
def shortcutsWhenIdle {V : Type} (pf : Platform V) (w : World V) : List Input → Bool
  | [] => true
  | e :: rest =>
    (!e.shortcutStart || w.tasks.isEmpty) && shortcutsWhenIdle pf (step pf w e) rest

/-- The chunk an input delivers to the call named `signal`, if it is one. -/
def chunkText (signal : Nat) : Input → Option JsString
  | Input.transport s (Resumption.chunk text) => if s = signal then some text else none
  | _ => none

/-- The chunks a sequence of inputs delivers to the call named `signal`, in order. -/
def chunksOf (signal : Nat) (inputs : List Input) : List JsString :=
  inputs.filterMap (chunkText signal)

/-- Whether an input happens beside the stream of the call named `signal`: it does not
start another turn through the keyboard listener and settles no promise of that call. -/
def Input.beside (signal : Nat) : Input → Bool
  | Input.keydown metaKey key fields => !(metaKey && key == "Enter" && fields.valid)
  | Input.transport s _ => s != signal
  | _ => true

/-- Whether an input leaves the stream of the call named `signal` going: it happens beside
the stream or delivers a chunk to the call. -/
def Input.keepsStream (signal : Nat) (e : Input) : Bool :=
  e.beside signal || (chunkText signal e).isSome

/-- Whether an input is the end, good or bad, of a call of `checkHealth`. -/
def Input.isHealthAnswer : Input → Bool
  | Input.healthSettled _ _ => true
  | Input.healthFailed _ => true
  | _ => false

/-- Whether, along a sequence of inputs, no call of `checkHealth` comes to its end. -/
def noHealthAnswer {V : Type} (pf : Platform V) (w : World V) : List Input → Bool
  | [] => true
  | e :: rest =>
    (!e.isHealthAnswer || w.checks == 0) && noHealthAnswer pf (step pf w e) rest

/-- The part of the client the callback of the read loop never writes. -/
def control {V : Type} (c : Client V) :
    Option Nat × Option Nat × Bool × Nat × Nat × List Request :=
  (c.controller, c.pendingAssistantIndex, c.sendDisabled, c.created, c.messages.length,
    c.requests)

/-- The invariant of the send button: no call of `sendQuery` is suspended, or exactly one
is, the send button is disabled, the controller is the one of that call, and the
open-message pointer designates a message of the transcript. -/
def Lone {V : Type} (w : World V) : Prop :=
  w.tasks = [] ∨
    ∃ t, w.tasks = [t] ∧ w.client.sendDisabled = true ∧ w.client.controller = some t.signal
      ∧ ∃ i, w.client.pendingAssistantIndex = some i ∧ i < w.client.messages.length

/-- The call named `signal` is the only one in flight and waits in `phase`, the send button
is disabled, the controller is the one of that call, and the open message is the last
message of the transcript, an assistant message with the given content. -/
def Streaming {V : Type} (w : World V) (signal : Nat) (phase : Phase) (base : List Message)
    (content : JsString) : Prop :=
  w.tasks = [{ signal := signal, phase := phase }]
    ∧ w.client.messages = base ++ [{ role := Role.assistant, content := content }]
    ∧ w.client.pendingAssistantIndex = some base.length
    ∧ w.client.sendDisabled = true
    ∧ w.client.controller = some signal

/-- The part of the script that the inputs leaving a stream going do not change. -/
def view {V : Type} (w : World V) :
    List Task × List Message × Option Nat × Bool × Option Nat × List V :=
  (w.tasks, w.client.messages, w.client.pendingAssistantIndex, w.client.sendDisabled,
    w.client.controller, w.client.citations)

/-- The input that settles the read of the call named `signal` with a chunk. -/
def chunkInput (signal : Nat) (text : JsString) : Input :=
  Input.transport signal (Resumption.chunk text)

/-- The inputs of a stream for the call named `signal`: a successful response with a body,
then the chunks in order. -/
def streamInputs (signal status : Nat) (statusText : JsString) (chunks : List JsString) :
    List Input :=
  Input.transport signal (Resumption.response true true status statusText)
    :: chunks.map (chunkInput signal)

/-- The events decoded from a stream received as the given chunks. -/
def streamEvents {V : Type} (pf : Platform V) (chunks : List JsString) : List (Event V) :=
  (decode pf.parse [] chunks.flatten).1

/-! ## A sample platform

A small fragment of the JSON values with the behaviour JavaScript gives them, used to
instantiate the statements at concrete inputs. -/

/-- The value of a property in the sample fragment: `null`, a string, or an array of
strings. -/
inductive SampleField where
  | null
  | str (s : JsString)
  | strs (xs : List JsString)
  deriving DecidableEq, Repr

/-- A parsed value of the sample fragment: one of the above, or an object whose only
properties are among `citations` and `token`. -/
inductive SampleValue where
  | field (f : SampleField)
  | obj (citations token : Option SampleField)
  deriving DecidableEq, Repr

/-- The result of `JSON.parse` on the few texts of the sample fragment; every other text is
treated as one on which `JSON.parse` raises. -/
def sampleParse (s : JsString) : Option SampleValue :=
  if s = "null".toList then some (SampleValue.field SampleField.null)
  else if s = "\x7b\x7d".toList then some (SampleValue.obj none none)
  else if s = "\x7b\"token\":\"A\"\x7d".toList then
    some (SampleValue.obj none (some (SampleField.str "A".toList)))
  else if s = "\x7b\"token\":\"B\"\x7d".toList then
    some (SampleValue.obj none (some (SampleField.str "B".toList)))
  else if s = "\x7b\"token\":\"C\"\x7d".toList then
    some (SampleValue.obj none (some (SampleField.str "C".toList)))
  else if s = "\x7b\"citations\":[\"x\"]\x7d".toList then
    some (SampleValue.obj (some (SampleField.strs ["x".toList])) none)
  else none

/-- The sample platform: property reads raise on `null` only; `null` and the empty string
are falsy; only arrays have `forEach`; the citation template raises on a `null` element
only; strings convert to themselves, arrays to their elements joined by commas. -/
def samplePlatform : Platform SampleValue where
  parse := sampleParse
  citationsOf := fun v =>
    match v with
    | SampleValue.field SampleField.null => none
    | SampleValue.field _ => some none
    | SampleValue.obj citations _ => some (citations.map SampleValue.field)
  tokenOf := fun v =>
    match v with
    | SampleValue.field SampleField.null => none
    | SampleValue.field _ => some none
    | SampleValue.obj _ token => some (token.map SampleValue.field)
  truthy := fun v =>
    match v with
    | SampleValue.field SampleField.null => false
    | SampleValue.field (SampleField.str s) => !s.isEmpty
    | _ => true
  isNull := fun v =>
    match v with
    | SampleValue.field SampleField.null => true
    | _ => false
  items := fun v =>
    match v with
    | SampleValue.field (SampleField.strs xs) =>
      some (xs.map (fun x => SampleValue.field (SampleField.str x)))
    | _ => none
  renders := fun v =>
    match v with
    | SampleValue.field SampleField.null => false
    | _ => true
  text := fun v =>
    match v with
    | SampleValue.field SampleField.null => some "null".toList
    | SampleValue.field (SampleField.str s) => some s
    | SampleValue.field (SampleField.strs xs) => some (List.intercalate [','] xs)
    | SampleValue.obj _ _ => some "[object Object]".toList

/-- The field values of a valid query used in the examples. -/
def sampleFields : Fields :=
  { serverUrl := "http://localhost:8000".toList, topK := some 5, question := " hi ".toList }

/-! ## Facts about the string built-ins -/

theorem frameSep_isPrefixOf_iff (s : JsString) :
    frameSep.isPrefixOf s = true ↔ ∃ t, s = '\n' :: '\n' :: t := by
  constructor
  · intro h
    rcases s with _ | ⟨c, _ | ⟨d, t⟩⟩
    · simp [frameSep, List.isPrefixOf] at h
    · simp [frameSep, List.isPrefixOf] at h
    · simp [frameSep, List.isPrefixOf] at h
      exact ⟨t, by rw [← h.1, ← h.2]⟩
  · rintro ⟨t, rfl⟩
    simp [frameSep, List.isPrefixOf]

theorem jsSplit_nil : jsSplit [] frameSep = [[]] := rfl

theorem jsSplit_sep (t : JsString) :
    jsSplit ('\n' :: '\n' :: t) frameSep = [] :: jsSplit t frameSep := by
  simp [jsSplit, splitAux, frameSep, List.isPrefixOf]

theorem jsSplit_cons (c : Char) (rest : JsString)
    (h : frameSep.isPrefixOf (c :: rest) = false) :
    jsSplit (c :: rest) frameSep = consHead c (jsSplit rest frameSep) := by
  simp [jsSplit, splitAux, h]

theorem consHead_ne_nil (c : Char) (l : List JsString) : consHead c l ≠ [] := by
  cases l <;> simp [consHead]

theorem consHead_length (c : Char) (l : List JsString) (h : l ≠ []) :
    (consHead c l).length = l.length := by
  cases l with
  | nil => exact absurd rfl h
  | cons a l => simp [consHead]

theorem jsSplit_ne_nil (s : JsString) : jsSplit s frameSep ≠ [] := by
  induction s with
  | nil => simp [jsSplit_nil]
  | cons c rest ih =>
    cases h : frameSep.isPrefixOf (c :: rest) with
    | true =>
      obtain ⟨t, ht⟩ := (frameSep_isPrefixOf_iff _).1 h
      rw [ht, jsSplit_sep]; simp
    | false => rw [jsSplit_cons c rest h]; exact consHead_ne_nil _ _

theorem getLastD_cons_of_ne_nil {α : Type} (a d : α) (l : List α) (h : l ≠ []) :
    (a :: l).getLastD d = l.getLastD d := by
  cases l with
  | nil => exact absurd rfl h
  | cons b l => simp [List.getLastD_cons]

theorem dropLast_append_getLastD {α : Type} (d : α) (l : List α) (h : l ≠ []) :
    l.dropLast ++ [l.getLastD d] = l := by
  induction l with
  | nil => exact absurd rfl h
  | cons a l ih =>
    cases l with
    | nil => simp
    | cons b l =>
      rw [List.dropLast_cons_of_ne_nil (by simp), getLastD_cons_of_ne_nil _ _ _ (by simp)]
      simp only [List.cons_append]
      rw [ih (by simp)]

theorem jsSplit_singleton (s seg : JsString) (h : jsSplit s frameSep = [seg]) : seg = s := by
  induction s generalizing seg with
  | nil =>
    rw [jsSplit_nil] at h
    simpa using h.symm
  | cons c rest ih =>
    cases hp : frameSep.isPrefixOf (c :: rest) with
    | true =>
      obtain ⟨t, ht⟩ := (frameSep_isPrefixOf_iff _).1 hp
      rw [ht, jsSplit_sep] at h
      have hne := jsSplit_ne_nil t
      simp at h
      exact absurd h.2 hne
    | false =>
      rw [jsSplit_cons c rest hp] at h
      cases hL : jsSplit rest frameSep with
      | nil => exact absurd hL (jsSplit_ne_nil rest)
      | cons a l =>
        rw [hL] at h
        simp [consHead] at h
        obtain ⟨h1, h2⟩ := h
        subst h2
        rw [← h1, ih a hL]

theorem jsSplit_append (u v : JsString) :
    jsSplit (u ++ v) frameSep
      = (jsSplit u frameSep).dropLast
          ++ jsSplit ((jsSplit u frameSep).getLastD [] ++ v) frameSep := by
  induction' hn : u.length using Nat.strong_induction_on with n ih generalizing u
  rcases u with _ | ⟨c, rest⟩
  · simp [jsSplit_nil]
  · cases hp : frameSep.isPrefixOf (c :: rest) with
    | true =>
      obtain ⟨t, ht⟩ := (frameSep_isPrefixOf_iff _).1 hp
      have hlen : t.length < n := by
        have := congrArg List.length ht
        simp at this hn
        omega
      rw [ht]
      simp only [List.cons_append]
      rw [jsSplit_sep, jsSplit_sep, ih t.length hlen t rfl,
        List.dropLast_cons_of_ne_nil (jsSplit_ne_nil t),
        getLastD_cons_of_ne_nil _ _ _ (jsSplit_ne_nil t)]
      rfl
    | false =>
      rcases rest with _ | ⟨d, rest⟩
      · rw [jsSplit_cons c [] hp, jsSplit_nil]
        simp [consHead]
      · have hp2 : frameSep.isPrefixOf (c :: (d :: rest ++ v)) = false := by
          simpa [frameSep, List.isPrefixOf] using hp
        have hlen : (d :: rest).length < n := by
          simp at hn ⊢
          omega
        have hrec := ih (d :: rest).length hlen (d :: rest) rfl
        rw [jsSplit_cons c (d :: rest) hp]
        show jsSplit (c :: (d :: rest ++ v)) frameSep = _
        rw [jsSplit_cons c _ hp2, hrec]
        cases hL : jsSplit (d :: rest) frameSep with
        | nil => exact absurd hL (jsSplit_ne_nil _)
        | cons a l =>
          cases l with
          | nil =>
            have ha : a = d :: rest := jsSplit_singleton _ _ hL
            subst ha
            simp only [consHead, List.dropLast_single, List.nil_append, List.getLastD_cons,
              List.getLastD_nil]
            show _ = jsSplit (c :: (d :: rest ++ v)) frameSep
            rw [jsSplit_cons c _ hp2]
            rfl
          | cons b l =>
            simp [consHead, List.getLastD_cons]

theorem getLastD_append_of_ne_nil {α : Type} (d : α) (l₁ l₂ : List α) (h : l₂ ≠ []) :
    (l₁ ++ l₂).getLastD d = l₂.getLastD d := by
  induction l₁ with
  | nil => rfl
  | cons a l ih =>
    rw [List.cons_append, getLastD_cons_of_ne_nil _ _ _ (by simp [h]), ih]

/-! ## Facts about `parseSseChunk` -/

theorem dispatchFrame_state {P σ : Type} (parse : JsString → Option P) (h : Handler P σ)
    (env : Env σ) (raw : JsString) :
    (dispatchFrame parse h env raw).state
      = ((frameEvent parse raw).toList).foldl (applyEvent h) env.state := by
  unfold dispatchFrame frameEvent
  by_cases hd : (parseFrame raw).data = []
  · simp [hd]
  · cases hp : parse (parseFrame raw).data with
    | none => simp [hd, hp]
    | some payload =>
      simp only [hd, hp, if_false, Option.map_some', Option.toList_some, List.foldl_cons,
        List.foldl_nil, applyEvent]
      split <;> rfl

theorem foldl_dispatchFrame_state {P σ : Type} (parse : JsString → Option P)
    (h : Handler P σ) (frames : List JsString) (env : Env σ) :
    (frames.foldl (dispatchFrame parse h) env).state
      = (frames.filterMap (frameEvent parse)).foldl (applyEvent h) env.state := by
  induction frames generalizing env with
  | nil => rfl
  | cons raw frames ih =>
    rw [List.foldl_cons, ih, dispatchFrame_state]
    cases hf : frameEvent parse raw with
    | none => simp [List.filterMap_cons, hf]
    | some e => simp [List.filterMap_cons, hf]

theorem foldl_record {P : Type} (events log : List (Event P)) :
    events.foldl (applyEvent record) log = log ++ events := by
  induction events generalizing log with
  | nil => simp
  | cons e events ih =>
    rw [List.foldl_cons, ih]
    simp [applyEvent, record]

theorem decode_events {P : Type} (parse : JsString → Option P) (buffer chunk : JsString) :
    (decode parse buffer chunk).1
      = ((jsSplit (buffer ++ chunk) frameSep).dropLast).filterMap (frameEvent parse) := by
  simp [decode, parseSseChunk, foldl_dispatchFrame_state, foldl_record]

theorem decode_remainder {P : Type} (parse : JsString → Option P) (buffer chunk : JsString) :
    (decode parse buffer chunk).2 = (jsSplit (buffer ++ chunk) frameSep).getLastD [] := rfl

theorem parseSseChunk_state {P σ : Type} (parse : JsString → Option P) (h : Handler P σ)
    (buffer chunk : JsString) (env : Env σ) :
    (parseSseChunk parse (buffer ++ chunk) h env).1.state
      = (decode parse buffer chunk).1.foldl (applyEvent h) env.state := by
  rw [decode_events]
  simp [parseSseChunk, foldl_dispatchFrame_state]

theorem parseSseChunk_remainder {P σ : Type} (parse : JsString → Option P) (h : Handler P σ)
    (buffer chunk : JsString) (env : Env σ) :
    (parseSseChunk parse (buffer ++ chunk) h env).2 = (decode parse buffer chunk).2 := rfl

/-- Feeding `a` and then `b`, with the remainder threaded, runs the same callbacks in the
same order as feeding `a ++ b` at once, for every callback and every starting state. -/
theorem parseSseChunk_append {P σ : Type} (parse : JsString → Option P) (h : Handler P σ)
    (buf a b : JsString) (env : Env σ) :
    parseSseChunk parse ((parseSseChunk parse (buf ++ a) h env).2 ++ b) h
        (parseSseChunk parse (buf ++ a) h env).1
      = parseSseChunk parse (buf ++ (a ++ b)) h env := by
  have key := jsSplit_append (buf ++ a) b
  have hne := jsSplit_ne_nil ((jsSplit (buf ++ a) frameSep).getLastD [] ++ b)
  simp only [parseSseChunk]
  rw [← List.append_assoc buf a b, key, List.dropLast_append_of_ne_nil _ hne,
    getLastD_append_of_ne_nil _ _ _ hne, List.foldl_append]

/-- C1. Frame reassembly: splitting an input `s = a ++ b` at any position and decoding `a`
against the buffer and then `b` against the returned remainder yields, in total and in
order, the events of decoding `s` in one call, and the same final remainder. -/
theorem frame_reassembly {P : Type} (parse : JsString → Option P) (buf a b : JsString) :
    (decode parse buf a).1 ++ (decode parse (decode parse buf a).2 b).1
        = (decode parse buf (a ++ b)).1
      ∧ (decode parse (decode parse buf a).2 b).2 = (decode parse buf (a ++ b)).2 := by
  have key := jsSplit_append (buf ++ a) b
  have hne := jsSplit_ne_nil ((jsSplit (buf ++ a) frameSep).getLastD [] ++ b)
  constructor
  · rw [decode_events, decode_events, decode_events, decode_remainder,
      ← List.append_assoc buf a b, key, List.dropLast_append_of_ne_nil _ hne,
      List.filterMap_append]
  · rw [decode_remainder, decode_remainder, decode_remainder, ← List.append_assoc buf a b, key,
      getLastD_append_of_ne_nil _ _ _ hne]

/-! ## The per-frame parse against its reference definition -/

theorem jsReplace_prefix (pat s : JsString) (h : pat.isPrefixOf s = true) :
    jsReplace pat [] s = textAfter pat s := by
  cases s with
  | nil =>
    cases pat with
    | nil => rfl
    | cons a pat => simp [List.isPrefixOf] at h
  | cons c rest => simp [jsReplace, h, textAfter]

theorem not_data_of_event (line : JsString) (h : eventMarker.isPrefixOf line = true) :
    dataMarker.isPrefixOf line = false := by
  cases line with
  | nil => simp [eventMarker, List.isPrefixOf] at h
  | cons c rest =>
    simp only [eventMarker, List.isPrefixOf, Bool.and_eq_true, beq_iff_eq] at h
    simp [dataMarker, List.isPrefixOf, ← h.1]

theorem foldl_parseLine (lines : List JsString) (e d : JsString) :
    lines.foldl parseLine { event := e, data := d }
      = { event :=
            match (lines.filter (fun line => eventMarker.isPrefixOf line)).getLast? with
            | none => e
            | some line => jsTrim (textAfter eventMarker line)
          data := d ++ ((lines.filter (fun line => dataMarker.isPrefixOf line)).map
            (fun line => jsTrim (textAfter dataMarker line))).flatten } := by
  induction lines generalizing e d with
  | nil => simp
  | cons line lines ih =>
    rw [List.foldl_cons]
    by_cases he : eventMarker.isPrefixOf line = true
    · have hd := not_data_of_event line he
      have hstep : parseLine { event := e, data := d } line
          = { event := jsTrim (textAfter eventMarker line), data := d } := by
        simp [parseLine, jsStartsWith, he, jsReplace_prefix]
      rw [hstep, ih, List.filter_cons_of_pos he, List.filter_cons_of_neg (by simp [hd])]
      cases hl : (lines.filter (fun line => eventMarker.isPrefixOf line)) with
      | nil => simp
      | cons a l =>
        cases hg : (a :: l).getLast? with
        | none => simp at hg
        | some x => simp [List.getLast?_cons_cons, hg]
    · by_cases hd : dataMarker.isPrefixOf line = true
      · have hstep : parseLine { event := e, data := d } line
            = { event := e, data := d ++ jsTrim (textAfter dataMarker line) } := by
          simp [parseLine, jsStartsWith, he, hd, jsReplace_prefix]
        rw [hstep, ih, List.filter_cons_of_neg he, List.filter_cons_of_pos hd]
        simp
      · have hstep : parseLine { event := e, data := d } line = { event := e, data := d } := by
          simp [parseLine, jsStartsWith, he, hd]
        rw [hstep, ih, List.filter_cons_of_neg he, List.filter_cons_of_neg hd]

theorem parseFrame_eq_ref (raw : JsString) :
    parseFrame raw = { event := refEventName raw, data := refData raw } := by
  unfold parseFrame refEventName refData
  rw [foldl_parseLine]
  simp

theorem frameEvent_eq_ref {P : Type} (parse : JsString → Option P) (raw : JsString) :
    frameEvent parse raw
      = if refData raw = [] then none
        else (parse (refData raw)).map (fun payload => (refEventName raw, payload)) := by
  simp [frameEvent, parseFrame_eq_ref]

/-- C2. Per-frame parsing equals its reference definition: the variables computed by the
loop over the lines of a frame are the reference event name and the reference data; the
events of a decode call are the reference events of every split segment but the last; a
frame whose accumulated data is empty yields no event; and the data of a frame none of
whose lines starts with `data:` is empty. -/
theorem frame_parse_refines_reference {P : Type} (parse : JsString → Option P) :
    (∀ raw : JsString,
        (parseFrame raw).event = refEventName raw ∧ (parseFrame raw).data = refData raw)
      ∧ (∀ buffer chunk : JsString,
          (decode parse buffer chunk).1
            = refEvents parse (jsSplit (buffer ++ chunk) frameSep).dropLast)
      ∧ (∀ raw : JsString, (parseFrame raw).data = [] → frameEvent parse raw = none)
      ∧ (∀ raw : JsString,
          (∀ line ∈ jsSplit raw lineSep, dataMarker.isPrefixOf line = false) →
            (parseFrame raw).data = []) := by
  refine ⟨fun raw => ?_, fun buffer chunk => ?_, fun raw hraw => ?_, fun raw hraw => ?_⟩
  · rw [parseFrame_eq_ref]
    exact ⟨rfl, rfl⟩
  · rw [decode_events, refEvents]
    congr 1
    funext raw
    exact frameEvent_eq_ref parse raw
  · simp [frameEvent, hraw]
  · rw [parseFrame_eq_ref]
    show refData raw = []
    unfold refData
    rw [List.filter_eq_nil_iff.2 (fun line hl => by simp [hraw line hl])]
    rfl

/-- C2 at a frame with an `event:` line and no `data:` line: its data is empty and it
yields no event. -/
theorem frame_parse_refines_reference_witness :
    (parseFrame "event: token\nid: 7".toList).data = []
      ∧ frameEvent sampleParse "event: token\nid: 7".toList = none :=
  ⟨(frame_parse_refines_reference sampleParse).2.2.2 "event: token\nid: 7".toList (by decide),
   (frame_parse_refines_reference sampleParse).2.2.1 "event: token\nid: 7".toList
     ((frame_parse_refines_reference sampleParse).2.2.2 "event: token\nid: 7".toList
       (by decide))⟩

/-! ## Inputs made of complete frames -/

theorem jsSplit_of_no_terminator (s : JsString) (h : ¬ frameSep <:+: s) :
    jsSplit s frameSep = [s] := by
  induction s with
  | nil => rfl
  | cons c rest ih =>
    have hp : frameSep.isPrefixOf (c :: rest) = false := by
      cases hq : frameSep.isPrefixOf (c :: rest) with
      | false => rfl
      | true =>
        exact absurd (List.isPrefixOf_iff_prefix.1 hq).isInfix h
    have hrest : ¬ frameSep <:+: rest := fun hi => h (hi.trans (List.suffix_cons c rest).isInfix)
    rw [jsSplit_cons c rest hp, ih hrest]
    rfl

theorem jsSplit_frame_cons (r t : JsString) (hr : jsSplit r frameSep = [r])
    (hlast : r.getLast? ≠ some '\n') :
    jsSplit (r ++ '\n' :: '\n' :: t) frameSep = r :: jsSplit t frameSep := by
  induction r with
  | nil => exact jsSplit_sep t
  | cons c rest ih =>
    have hp : frameSep.isPrefixOf (c :: rest) = false := by
      cases hq : frameSep.isPrefixOf (c :: rest) with
      | false => rfl
      | true =>
        obtain ⟨u, hu⟩ := (frameSep_isPrefixOf_iff _).1 hq
        rw [hu, jsSplit_sep] at hr
        simp at hr
    have hrest : jsSplit rest frameSep = [rest] := by
      rw [jsSplit_cons c rest hp] at hr
      cases hL : jsSplit rest frameSep with
      | nil => exact absurd hL (jsSplit_ne_nil rest)
      | cons a l =>
        rw [hL] at hr
        simp [consHead] at hr
        rw [hr.1, hr.2]
    have hp2 : frameSep.isPrefixOf (c :: (rest ++ '\n' :: '\n' :: t)) = false := by
      cases rest with
      | nil =>
        have hc : c ≠ '\n' := by
          intro hc
          apply hlast
          simp [hc]
        simp [frameSep, List.isPrefixOf, Ne.symm hc]
      | cons d rest => simpa [frameSep, List.isPrefixOf] using hp
    have hlast2 : rest.getLast? ≠ some '\n' := by
      cases rest with
      | nil => simp
      | cons d rest => simpa [List.getLast?_cons_cons] using hlast
    show jsSplit (c :: (rest ++ '\n' :: '\n' :: t)) frameSep = _
    rw [jsSplit_cons c _ hp2, ih hrest hlast2]
    rfl

theorem jsSplit_framed (frames : List JsString) (h : ∀ f ∈ frames, CompleteFrame f) :
    jsSplit (framed frames) frameSep = frames ++ [[]] := by
  induction frames with
  | nil => rfl
  | cons f frames ih =>
    have hf := h f (List.mem_cons_self f frames)
    have hrec := ih (fun g hg => h g (List.mem_cons_of_mem f hg))
    have hshape : framed (f :: frames) = f ++ '\n' :: '\n' :: framed frames := by
      simp [framed, frameSep]
    rw [hshape, jsSplit_frame_cons f _ (jsSplit_of_no_terminator f hf.1) hf.2, hrec]
    rfl

theorem foldl_dispatchFrame_record_console {P : Type} (parse : JsString → Option P)
    (frames : List JsString) (env : Env (List (Event P))) :
    (frames.foldl (dispatchFrame parse record) env).console
      = env.console ++ frames.filterMap (parseFailure parse) := by
  induction frames generalizing env with
  | nil => simp
  | cons raw frames ih =>
    rw [List.foldl_cons, ih]
    unfold dispatchFrame parseFailure
    by_cases hd : (parseFrame raw).data = []
    · simp [hd, List.filterMap_cons]
    · cases hp : parse (parseFrame raw).data with
      | none => simp [hd, hp, List.filterMap_cons]
      | some payload => simp [hd, hp, List.filterMap_cons, record]

/-- C3. Malformed-JSON isolation: decoding is a total function; on every input it hands
to the callback exactly the events of the split segments but the last whose non-empty data
parses, in order; on an input made of complete frames these segments are the frames and
the remainder is empty, every frame whose non-empty data fails to parse is reported to the
console and contributes no event, and this holds for every callback, raising or not,
whose updates are applied in that same order. -/
theorem malformed_json_isolation {P : Type} (parse : JsString → Option P) :
    (∀ input : JsString,
        (decode parse [] input).1
          = ((jsSplit input frameSep).dropLast).filterMap (frameEvent parse))
      ∧ ∀ frames : List JsString, (∀ f ∈ frames, CompleteFrame f) →
          decode parse [] (framed frames) = (frames.filterMap (frameEvent parse), [])
            ∧ (parseSseChunk parse (framed frames) record
                { state := [], console := [] }).1.console
              = frames.filterMap (parseFailure parse)
            ∧ ∀ (σ : Type) (onEvent : Handler P σ) (env : Env σ),
                (parseSseChunk parse (framed frames) onEvent env).1.state
                    = (frames.filterMap (frameEvent parse)).foldl (applyEvent onEvent) env.state
                  ∧ (parseSseChunk parse (framed frames) onEvent env).2 = [] := by
  refine ⟨fun input => decode_events parse [] input, fun frames h => ?_⟩
  have hsplit := jsSplit_framed frames h
  refine ⟨?_, ?_, fun σ onEvent env => ⟨?_, ?_⟩⟩
  · apply Prod.ext
    · rw [decode_events, List.nil_append, hsplit]
      simp
    · rw [decode_remainder, List.nil_append, hsplit]
      simp
  · simp only [parseSseChunk]
    rw [foldl_dispatchFrame_record_console, hsplit]
    simp
  · simp only [parseSseChunk]
    rw [foldl_dispatchFrame_state, hsplit]
    simp
  · simp only [parseSseChunk]
    rw [hsplit]
    simp

/-- C3 at a malformed `token` frame followed by a well-formed one: exactly one event. -/
theorem malformed_json_isolation_witness :
    decode sampleParse []
        (framed ["event: token\ndata: \x7boops".toList, "event: token\ndata: \x7b\x7d".toList])
      = ([("token".toList, SampleValue.obj none none)], []) :=
  ((malformed_json_isolation sampleParse).2
    ["event: token\ndata: \x7boops".toList, "event: token\ndata: \x7b\x7d".toList]
    (by decide)).1

/-! ## The remainder -/

theorem jsSplit_induction {motive : JsString → Prop} (nil : motive [])
    (sep : ∀ t, motive t → motive ('\n' :: '\n' :: t))
    (cons : ∀ c rest, frameSep.isPrefixOf (c :: rest) = false → motive rest →
      motive (c :: rest)) :
    ∀ s, motive s := by
  intro s
  induction' hn : s.length using Nat.strong_induction_on with n ih generalizing s
  rcases s with _ | ⟨c, rest⟩
  · exact nil
  · cases hp : frameSep.isPrefixOf (c :: rest) with
    | true =>
      obtain ⟨t, ht⟩ := (frameSep_isPrefixOf_iff _).1 hp
      have hlen : t.length < n := by
        have := congrArg List.length ht
        simp at this hn
        omega
      rw [ht]
      exact sep t (ih t.length hlen t rfl)
    | false =>
      have hlen : rest.length < n := by
        simp at hn
        omega
      exact cons c rest hp (ih rest.length hlen rest rfl)

theorem remainder_suffix (s : JsString) : (jsSplit s frameSep).getLastD [] <:+ s := by
  induction s using jsSplit_induction with
  | nil => simp [jsSplit_nil]
  | sep t ih =>
    rw [jsSplit_sep, getLastD_cons_of_ne_nil _ _ _ (jsSplit_ne_nil t)]
    exact ih.trans ((List.suffix_cons _ _).trans (List.suffix_cons _ _))
  | cons c rest hp ih =>
    rw [jsSplit_cons c rest hp]
    cases hL : jsSplit rest frameSep with
    | nil => exact absurd hL (jsSplit_ne_nil rest)
    | cons a l =>
      cases l with
      | nil =>
        have ha : a = rest := jsSplit_singleton _ _ hL
        simp [consHead, ha]
      | cons b l =>
        rw [hL] at ih
        simp only [consHead, List.getLastD_cons] at ih ⊢
        exact ih.trans (List.suffix_cons _ _)

theorem jsSplit_remainder (s : JsString) :
    jsSplit ((jsSplit s frameSep).getLastD []) frameSep = [(jsSplit s frameSep).getLastD []] := by
  have key := jsSplit_append s []
  rw [List.append_nil, List.append_nil] at key
  have hsplit := dropLast_append_getLastD ([] : JsString) (jsSplit s frameSep) (jsSplit_ne_nil s)
  have : (jsSplit s frameSep).dropLast ++ jsSplit ((jsSplit s frameSep).getLastD []) frameSep
      = (jsSplit s frameSep).dropLast ++ [(jsSplit s frameSep).getLastD []] := by
    rw [← key, hsplit]
  exact List.append_cancel_left this

theorem two_le_length_jsSplit (a b : JsString) :
    2 ≤ (jsSplit (a ++ '\n' :: '\n' :: b) frameSep).length := by
  induction a with
  | nil =>
    rw [List.nil_append, jsSplit_sep]
    have := List.length_pos.2 (jsSplit_ne_nil b)
    simp
    omega
  | cons c a ih =>
    cases hp : frameSep.isPrefixOf (c :: (a ++ '\n' :: '\n' :: b)) with
    | true =>
      obtain ⟨t, ht⟩ := (frameSep_isPrefixOf_iff _).1 hp
      rw [List.cons_append, ht, jsSplit_sep]
      have := List.length_pos.2 (jsSplit_ne_nil t)
      simp
      omega
    | false =>
      rw [List.cons_append, jsSplit_cons c _ hp, consHead_length c _ (jsSplit_ne_nil _)]
      exact ih

theorem no_terminator_of_jsSplit (s : JsString) (h : jsSplit s frameSep = [s]) :
    ¬ frameSep <:+: s := by
  rintro ⟨a, b, hab⟩
  have hlen := two_le_length_jsSplit a b
  have hs : a ++ '\n' :: '\n' :: b = s := by
    rw [← hab]
    simp [frameSep]
  rw [hs, h] at hlen
  simp at hlen

theorem remainder_no_terminator (s : JsString) :
    ¬ frameSep <:+: (jsSplit s frameSep).getLastD [] :=
  no_terminator_of_jsSplit _ (jsSplit_remainder s)

/-- C10, as stated, fails: a buffer that still holds a complete frame is not returned
unchanged by an empty chunk, and its event is emitted. -/
theorem empty_chunk_counterexample :
    decode sampleParse "data: \x7b\x7d\n\n".toList [] = ([("message".toList, SampleValue.obj none none)], [])
      ∧ decode sampleParse "data: \x7b\x7d\n\n".toList [] ≠ ([], "data: \x7b\x7d\n\n".toList) := by
  decide

/-- C10, amended. The remainder returned by a decode call never contains the frame
terminator, and for every buffer that contains no frame terminator, decoding an empty
chunk against it emits no events and returns the buffer unchanged. -/
theorem empty_chunk_keeps_buffer {P : Type} (parse : JsString → Option P) :
    (∀ buffer chunk : JsString, ¬ frameSep <:+: (decode parse buffer chunk).2)
      ∧ ∀ buffer : JsString, ¬ frameSep <:+: buffer →
          decode parse buffer [] = ([], buffer) := by
  refine ⟨fun buffer chunk => ?_, fun buffer hb => ?_⟩
  · rw [decode_remainder]
    exact remainder_no_terminator _
  · apply Prod.ext
    · rw [decode_events, List.append_nil, jsSplit_of_no_terminator buffer hb]
      rfl
    · rw [decode_remainder, List.append_nil, jsSplit_of_no_terminator buffer hb]
      rfl

/-- C10, amended, at the buffer left by a partial frame. -/
theorem empty_chunk_keeps_buffer_witness :
    decode sampleParse "event: token\ndata: Hel".toList []
      = ([], "event: token\ndata: Hel".toList) :=
  (empty_chunk_keeps_buffer sampleParse).2 "event: token\ndata: Hel".toList (by decide)

theorem remainder_replicate (m : Nat) :
    (jsSplit (List.replicate m '\n') frameSep).getLastD []
      = if m % 2 = 0 then [] else ['\n'] := by
  induction' m using Nat.strong_induction_on with m ih
  match m with
  | 0 => rfl
  | 1 => rfl
  | k + 2 =>
    have hrep : List.replicate (k + 2) '\n' = '\n' :: '\n' :: List.replicate k '\n' := rfl
    rw [hrep, jsSplit_sep, getLastD_cons_of_ne_nil _ _ _ (jsSplit_ne_nil _), ih k (by omega)]
    simp [Nat.add_mod]

theorem eq_append_replicate_trailing (s : JsString) :
    ∃ v : JsString, s = v ++ List.replicate (trailingNewlines s) '\n'
      ∧ v.getLast? ≠ some '\n' := by
  refine ⟨(s.reverse.dropWhile (fun c => c == '\n')).reverse, ?_, ?_⟩
  · have htake : s.reverse.takeWhile (fun c => c == '\n')
        = List.replicate (trailingNewlines s) '\n' := by
      rw [List.eq_replicate_iff]
      refine ⟨rfl, fun x hx => ?_⟩
      simpa using List.mem_takeWhile_imp hx
    have hsplit := List.takeWhile_append_dropWhile (fun c => c == '\n') s.reverse
    have := congrArg List.reverse hsplit
    rw [List.reverse_append, List.reverse_reverse, htake, List.reverse_replicate] at this
    exact this.symm
  · rw [List.getLast?_reverse]
    have := List.head?_dropWhile_not (fun c => c == '\n') s.reverse
    intro hhead
    rw [hhead] at this
    simp at this

theorem two_le_trailingNewlines (s chunk : JsString) (h : frameSep <:+ chunk) :
    2 ≤ trailingNewlines (s ++ chunk) := by
  obtain ⟨x, hx⟩ := h
  have : (s ++ chunk).reverse = '\n' :: '\n' :: (s ++ x).reverse := by
    rw [← hx]
    simp [frameSep]
  unfold trailingNewlines
  rw [this]
  simp [List.takeWhile_cons]

theorem remainder_append_replicate (v : JsString) (k : Nat) (hv : v.getLast? ≠ some '\n')
    (hk : 2 ≤ k) :
    (jsSplit (v ++ List.replicate k '\n') frameSep).getLastD []
      = if k % 2 = 0 then [] else ['\n'] := by
  obtain ⟨m, rfl⟩ : ∃ m, k = m + 2 := ⟨k - 2, by omega⟩
  have hrep : List.replicate (m + 2) '\n' = '\n' :: '\n' :: List.replicate m '\n' := rfl
  have hr : ((jsSplit v frameSep).getLastD []).getLast? ≠ some '\n' := by
    obtain ⟨p, hp⟩ := remainder_suffix v
    by_cases hnil : (jsSplit v frameSep).getLastD [] = []
    · rw [hnil]
      simp
    · intro hlast
      apply hv
      rw [← hp, List.getLast?_append_of_ne_nil _ hnil]
      exact hlast
  rw [jsSplit_append, getLastD_append_of_ne_nil _ _ _ (jsSplit_ne_nil _), hrep,
    jsSplit_frame_cons _ _ (jsSplit_remainder v) hr,
    getLastD_cons_of_ne_nil _ _ _ (jsSplit_ne_nil _), remainder_replicate]
  simp [Nat.add_mod]

/-- C9, as stated, fails: on a chunk ending with the terminator preceded by one more
newline, the returned remainder is a single newline. -/
theorem remainder_at_terminator_counterexample :
    frameSep <:+ "a\n\n\n".toList
      ∧ (decode sampleParse [] "a\n\n\n".toList).2 = ['\n']
      ∧ (decode sampleParse [] "a\n\n\n".toList).2 ≠ [] := by
  decide

/-- C9, amended. For every buffer and every chunk that ends with the frame terminator,
the remainder is the empty string when the run of newlines ending buffer plus chunk has
even length, and a single newline when that length is odd. -/
theorem remainder_at_terminator {P : Type} (parse : JsString → Option P)
    (buffer chunk : JsString) (h : frameSep <:+ chunk) :
    (decode parse buffer chunk).2
      = if trailingNewlines (buffer ++ chunk) % 2 = 0 then [] else ['\n'] := by
  obtain ⟨v, hv, hlast⟩ := eq_append_replicate_trailing (buffer ++ chunk)
  have hk := two_le_trailingNewlines buffer chunk h
  rw [decode_remainder]
  conv_lhs => rw [hv]
  exact remainder_append_replicate v _ hlast hk

/-- C9, amended, at the second chunk of the two-chunk scenario of the specification. -/
theorem remainder_at_terminator_witness :
    (decode sampleParse "event: token\ndata: Hel".toList
        "lo\n\nevent: token\ndata: !\n\n".toList).2 = [] :=
  remainder_at_terminator sampleParse "event: token\ndata: Hel".toList
    "lo\n\nevent: token\ndata: !\n\n".toList (by decide)

/-! ## The callback of the read loop -/

theorem set_last {α : Type} (base : List α) (m m' : α) :
    (base ++ [m]).set base.length m' = base ++ [m'] := by
  induction base with
  | nil => rfl
  | cons a base ih => simp [List.set, ih]

theorem getElem?_last {α : Type} (base : List α) (m : α) :
    (base ++ [m])[base.length]? = some m := by
  simp

/-- The update of one decoded event on a client whose open message is the last message. -/
theorem applyEvent_onEvent {V : Type} (pf : Platform V) (c : Client V) (e : Event V)
    (base : List Message) (content : JsString)
    (hm : c.messages = base ++ [{ role := Role.assistant, content := content }])
    (hp : c.pendingAssistantIndex = some base.length) :
    applyEvent (onEvent pf) c e
      = { c with
          messages := base ++ [{ role := Role.assistant, content := content ++ tokenText pf e }]
          citations :=
            if e.1 = "citations".toList then (shownCitations pf e.2).getD c.citations
            else c.citations
          statusText := if e.1 = "done".toList then "Done" else c.statusText
          statusVariant := if e.1 = "done".toList then "ok" else c.statusVariant } := by
  obtain ⟨name, payload⟩ := e
  have h1 : "token".toList ≠ "citations".toList := by decide
  have h2 : "done".toList ≠ "citations".toList := by decide
  have h3 : "done".toList ≠ "token".toList := by decide
  cases c with
  | mk controller startTime timerHandle frames requested messages pendingAssistantIndex
      statusText statusVariant sendDisabled citations aborted created requests =>
    simp only at hm hp
    subst hm hp
    by_cases hc : name = "citations".toList
    · subst hc
      have hd : "citations".toList ≠ "done".toList := fun h => h2 h.symm
      have ht : "citations".toList ≠ "token".toList := fun h => h1 h.symm
      simp only [applyEvent, onEvent, tokenText, shownCitations, if_true, if_neg hd, if_neg ht,
        List.append_nil]
      cases hread : pf.citationsOf payload with
      | none => simp
      | some field =>
        cases hor : citationsOrEmpty pf field with
        | none => simp [renderCitations, hor]
        | some v =>
          cases hitems : pf.items v with
          | none => simp [renderCitations, hor, hitems]
          | some xs => simp [renderCitations, hor, hitems]
    · by_cases ht : name = "token".toList
      · subst ht
        simp only [applyEvent, onEvent, tokenText, if_neg h1, if_neg hc, if_true,
          if_neg h3.symm, appendToken, getElem?_last]
        cases hread : pf.tokenOf payload with
        | none => simp
        | some field =>
          cases hop : tokenOperand pf field with
          | none => simp [hop]
          | some t => simp [hop, set_last]
      · by_cases hd : name = "done".toList
        · subst hd
          simp only [applyEvent, onEvent, tokenText, setStatus, if_neg h2, if_neg h3, if_true,
            List.append_nil]
        · simp only [applyEvent, onEvent, tokenText, if_neg hc, if_neg ht, if_neg hd,
            List.append_nil]

theorem getLast?_cons_getD {α : Type} (b d : α) (l : List α) :
    ((b :: l).getLast?).getD d = (l.getLast?).getD b := by
  cases l with
  | nil => rfl
  | cons a l =>
    rw [List.getLast?_cons_cons]
    cases h : (a :: l).getLast? with
    | none => simp at h
    | some x => rfl

theorem latestCitations_cons {V : Type} (pf : Platform V) (e : Event V)
    (events : List (Event V)) (start : List V) :
    (latestCitations pf (e :: events)).getD start
      = (latestCitations pf events).getD
          (if e.1 = "citations".toList then (shownCitations pf e.2).getD start else start) := by
  unfold latestCitations
  by_cases hc : e.1 = "citations".toList
  · cases hs : shownCitations pf e.2 with
    | none => simp only [List.filterMap_cons, if_pos hc, hs, Option.getD_none]
    | some batch =>
      simp only [List.filterMap_cons, if_pos hc, hs, Option.getD_some]
      exact getLast?_cons_getD _ _ _
  · simp only [List.filterMap_cons, if_neg hc]

theorem doneDecoded_cons {V : Type} (e : Event V) (events : List (Event V)) :
    doneDecoded (e :: events) = (decide (e.1 = "done".toList) || doneDecoded events) := by
  simp [doneDecoded]

/-- The client after the callback has run on a sequence of decoded events, in order. -/
theorem foldl_onEvent {V : Type} (pf : Platform V) (events : List (Event V)) (c : Client V)
    (base : List Message) (content : JsString)
    (hm : c.messages = base ++ [{ role := Role.assistant, content := content }])
    (hp : c.pendingAssistantIndex = some base.length) :
    events.foldl (applyEvent (onEvent pf)) c
      = { c with
          messages := base ++ [{ role := Role.assistant,
                                 content := content ++ (events.map (tokenText pf)).flatten }]
          citations := (latestCitations pf events).getD c.citations
          statusText := if doneDecoded events then "Done" else c.statusText
          statusVariant := if doneDecoded events then "ok" else c.statusVariant } := by
  induction events generalizing c content with
  | nil =>
    cases c
    simp only at hm
    subst hm
    simp [latestCitations, doneDecoded]
  | cons e events ih =>
    rw [List.foldl_cons, applyEvent_onEvent pf c e base content hm hp]
    rw [ih { c with
          messages := base ++ [{ role := Role.assistant, content := content ++ tokenText pf e }]
          citations :=
            if e.1 = "citations".toList then (shownCitations pf e.2).getD c.citations
            else c.citations
          statusText := if e.1 = "done".toList then "Done" else c.statusText
          statusVariant := if e.1 = "done".toList then "ok" else c.statusVariant }
      (content ++ tokenText pf e) rfl hp]
    rw [latestCitations_cons, doneDecoded_cons]
    cases c
    by_cases hd : e.1 = "done".toList
    · simp [hd, List.append_assoc]
    · simp only [List.map_cons, List.flatten_cons, List.append_assoc, hd, decide_False,
        Bool.false_or, if_false]

/-! ## A turn followed from its start -/

theorem sendQuery_tasks {V : Type} (fields : Fields) (w : World V)
    (hurl : jsTrim fields.serverUrl ≠ []) (hq : jsTrim fields.question ≠ []) :
    (sendQuery fields w).tasks
        = w.tasks ++ [{ signal := w.client.created, phase := Phase.fetching }]
      ∧ (sendQuery fields w).console = w.console := by
  simp [sendQuery, hurl, hq, startTimer, requestFrame, clearResponse, setStatus]

theorem sendQuery_client {V : Type} (fields : Fields) (w : World V)
    (hurl : jsTrim fields.serverUrl ≠ []) (hq : jsTrim fields.question ≠ []) :
    (sendQuery fields w).client
      = { w.client with
          messages := (w.client.messages ++ [{ role := Role.user, content := jsTrim fields.question }])
            ++ [{ role := Role.assistant, content := [] }]
          pendingAssistantIndex := some (w.client.messages.length + 1)
          controller := some w.client.created
          created := w.client.created + 1
          sendDisabled := true
          statusText := "Streaming..."
          statusVariant := "ok"
          citations := []
          startTime := true
          timerHandle := some (w.client.requested + 1)
          frames := w.client.frames ++ [w.client.requested + 1]
          requested := w.client.requested + 1
          requests := w.client.requests ++
            [{ url := jsTrim fields.serverUrl ++ "/query".toList
               query := jsTrim fields.question
               top_k := topKOrDefault fields.topK
               history := w.client.messages
               signal := w.client.created }] } := by
  simp [sendQuery, hurl, hq, startTimer, requestFrame, clearResponse, setStatus]

theorem run_append {V : Type} (pf : Platform V) (w : World V) (xs ys : List Input) :
    run pf w (xs ++ ys) = run pf (run pf w xs) ys := by
  simp [run, List.foldl_append]

theorem valid_iff (fields : Fields) :
    fields.valid = true ↔ jsTrim fields.serverUrl ≠ [] ∧ jsTrim fields.question ≠ [] := by
  simp [Fields.valid, List.isEmpty_iff]

theorem sendQuery_of_not_valid {V : Type} (fields : Fields) (w : World V)
    (h : fields.valid = false) : sendQuery fields w = w := by
  have hn : ¬ (jsTrim fields.serverUrl ≠ [] ∧ jsTrim fields.question ≠ []) := by
    rw [← valid_iff, h]
    simp
  have hor : jsTrim fields.serverUrl = [] ∨ jsTrim fields.question = [] := by
    by_cases hu : jsTrim fields.serverUrl = []
    · exact Or.inl hu
    · by_cases hq : jsTrim fields.question = []
      · exact Or.inr hq
      · exact absurd ⟨hu, hq⟩ hn
  simp [sendQuery, hor]

theorem decode_thread {P : Type} (parse : JsString → Option P) (buf a b : JsString) :
    decode parse buf (a ++ b)
      = ((decode parse buf a).1 ++ (decode parse (decode parse buf a).2 b).1,
         (decode parse (decode parse buf a).2 b).2) := by
  have key := jsSplit_append (buf ++ a) b
  have hne := jsSplit_ne_nil ((jsSplit (buf ++ a) frameSep).getLastD [] ++ b)
  apply Prod.ext
  · show (decode parse buf (a ++ b)).1 = _
    rw [decode_events, decode_events, decode_events, decode_remainder,
      ← List.append_assoc buf a b, key, List.dropLast_append_of_ne_nil _ hne,
      List.filterMap_append]
  · show (decode parse buf (a ++ b)).2 = _
    rw [decode_remainder, decode_remainder, decode_remainder, ← List.append_assoc buf a b, key,
      getLastD_append_of_ne_nil _ _ _ hne]

theorem decode_nil {P : Type} (parse : JsString → Option P) (buf : JsString)
    (h : ¬ frameSep <:+: buf) : decode parse buf [] = ([], buf) := by
  apply Prod.ext
  · rw [decode_events, List.append_nil, jsSplit_of_no_terminator buf h]
    rfl
  · rw [decode_remainder, List.append_nil, jsSplit_of_no_terminator buf h]
    rfl

theorem decode_remainder_no_terminator {P : Type} (parse : JsString → Option P)
    (buf chunk : JsString) : ¬ frameSep <:+: (decode parse buf chunk).2 := by
  rw [decode_remainder]
  exact remainder_no_terminator _

theorem latestCitations_nil {V : Type} (pf : Platform V) (start : List V) :
    (latestCitations pf []).getD start = start := rfl

theorem latestCitations_append {V : Type} (pf : Platform V) (xs ys : List (Event V))
    (start : List V) :
    (latestCitations pf (xs ++ ys)).getD start
      = (latestCitations pf ys).getD ((latestCitations pf xs).getD start) := by
  induction xs generalizing start with
  | nil => rfl
  | cons e xs ih =>
    rw [List.cons_append, latestCitations_cons, ih, latestCitations_cons]

theorem doneDecoded_append {V : Type} (xs ys : List (Event V)) :
    doneDecoded (xs ++ ys) = (doneDecoded xs || doneDecoded ys) := by
  simp [doneDecoded, List.any_append]

theorem chunkText_eq_some (signal : Nat) (e : Input) (text : JsString)
    (h : chunkText signal e = some text) :
    e = Input.transport signal (Resumption.chunk text) := by
  cases e with
  | transport s r =>
    cases r with
    | chunk x =>
      simp only [chunkText] at h
      split at h
      · rename_i hs
        simp only [Option.some.injEq] at h
        rw [hs, h]
      · exact absurd h (by simp)
    | response ok hasBody status statusText => simp [chunkText] at h
    | rejected message => simp [chunkText] at h
    | done => simp [chunkText] at h
  | clickSend fields => simp [chunkText] at h
  | keydown metaKey key fields => simp [chunkText] at h
  | clickStop => simp [chunkText] at h
  | clickHealth serverUrl => simp [chunkText] at h
  | healthSettled rendered isOk => simp [chunkText] at h
  | healthFailed message => simp [chunkText] at h
  | animationFrame handle => simp [chunkText] at h

theorem streaming_of_view {V : Type} (w w' : World V) (signal : Nat) (phase : Phase)
    (base : List Message) (content : JsString) (h : view w' = view w)
    (hs : Streaming w signal phase base content) : Streaming w' signal phase base content := by
  simp only [view, Prod.mk.injEq] at h
  obtain ⟨h1, h2, h3, h4, h5, -⟩ := h
  obtain ⟨s1, s2, s3, s4, s5⟩ := hs
  exact ⟨by rw [h1, s1], by rw [h2, s2], by rw [h3, s3], by rw [h4, s4], by rw [h5, s5]⟩

theorem streaming_sendQuery {V : Type} (fields : Fields) (w0 : World V)
    (hidle : w0.tasks = []) (hurl : jsTrim fields.serverUrl ≠ [])
    (hq : jsTrim fields.question ≠ []) :
    Streaming (sendQuery fields w0) w0.client.created Phase.fetching
        (w0.client.messages ++ [{ role := Role.user, content := jsTrim fields.question }]) []
      ∧ (sendQuery fields w0).client.citations = []
      ∧ (sendQuery fields w0).client.statusText = "Streaming..." := by
  have htasks := (sendQuery_tasks fields w0 hurl hq).1
  rw [hidle, List.nil_append] at htasks
  have hclient := sendQuery_client fields w0 hurl hq
  refine ⟨⟨htasks, ?_, ?_, ?_, ?_⟩, ?_, ?_⟩ <;> simp [hclient]

theorem noHealthAnswer_append {V : Type} (pf : Platform V) (w : World V)
    (xs ys : List Input) :
    noHealthAnswer pf w (xs ++ ys)
      = (noHealthAnswer pf w xs && noHealthAnswer pf (run pf w xs) ys) := by
  induction xs generalizing w with
  | nil => simp [noHealthAnswer, run]
  | cons e xs ih =>
    have hrec := ih (step pf w e)
    show ((!e.isHealthAnswer || w.checks == 0) && noHealthAnswer pf (step pf w e) (xs ++ ys))
      = _
    rw [hrec, ← Bool.and_assoc]
    rfl

/-- An input that happens beside the stream of the only call in flight changes nothing of
what the turn works on; it leaves the status as it is unless it ends a health check. -/
theorem view_step {V : Type} (pf : Platform V) (w : World V) (e : Input) (signal : Nat)
    (phase : Phase) (base : List Message) (content : JsString)
    (hs : Streaming w signal phase base content) (he : e.beside signal = true) :
    view (step pf w e) = view w
      ∧ ((!e.isHealthAnswer || w.checks == 0) = true →
          (step pf w e).client.statusText = w.client.statusText) := by
  obtain ⟨s1, s2, s3, s4, s5⟩ := hs
  cases e with
  | clickSend fields => simp [step, s4]
  | keydown metaKey key fields =>
    simp only [step]
    split
    · rename_i hkey
      have hvalid : fields.valid = false := by
        simp only [Input.beside, hkey, Bool.true_and, Bool.not_eq_true'] at he
        exact he
      rw [sendQuery_of_not_valid fields w hvalid]
      exact ⟨rfl, fun _ => rfl⟩
    · exact ⟨rfl, fun _ => rfl⟩
  | clickStop =>
    simp [step, stopQuery, s5, view]
  | transport s r =>
    have hne : ¬ signal = s := by
      intro h
      simp [Input.beside, h] at he
    simp only [step, s1, List.find?, hne, decide_False]
    first
      | exact ⟨rfl, fun _ => rfl⟩
      | exact ⟨trivial, fun _ => trivial⟩
  | clickHealth serverUrl =>
    simp only [step, checkHealth]
    split <;> exact ⟨rfl, fun _ => rfl⟩
  | healthSettled rendered isOk =>
    simp only [step, healthResult]
    split
    · exact ⟨rfl, fun _ => rfl⟩
    · rename_i hchecks
      refine ⟨rfl, fun h => ?_⟩
      simp [Input.isHealthAnswer, hchecks] at h
  | healthFailed message =>
    simp only [step, healthError]
    split
    · exact ⟨rfl, fun _ => rfl⟩
    · rename_i hchecks
      refine ⟨rfl, fun h => ?_⟩
      simp [Input.isHealthAnswer, hchecks] at h
  | animationFrame handle =>
    simp only [step, updateTimer, requestFrame]
    split
    · split <;> exact ⟨rfl, fun _ => rfl⟩
    · exact ⟨rfl, fun _ => rfl⟩

theorem run_fetching {V : Type} (pf : Platform V) (signal : Nat) (base : List Message)
    (content : JsString) (pre : List Input) (w : World V)
    (hs : Streaming w signal Phase.fetching base content)
    (hpre : ∀ e ∈ pre, e.beside signal = true) :
    view (run pf w pre) = view w
      ∧ (noHealthAnswer pf w pre = true →
          (run pf w pre).client.statusText = w.client.statusText) := by
  induction pre generalizing w with
  | nil => exact ⟨rfl, fun _ => rfl⟩
  | cons e pre ih =>
    have hstep := view_step pf w e signal Phase.fetching base content hs
      (hpre e (List.mem_cons_self e pre))
    have hs' := streaming_of_view w (step pf w e) signal Phase.fetching base content hstep.1 hs
    have hrec := ih (step pf w e) hs' (fun x hx => hpre x (List.mem_cons_of_mem e hx))
    simp only [run, List.foldl_cons] at hrec ⊢
    refine ⟨hrec.1.trans hstep.1, fun hall => ?_⟩
    simp only [noHealthAnswer, Bool.and_eq_true] at hall
    rw [hrec.2 hall.2, hstep.2 hall.1]

theorem step_response_streaming {V : Type} (pf : Platform V) (w : World V) (signal : Nat)
    (base : List Message) (content : JsString) (status : Nat) (statusText : JsString)
    (hs : Streaming w signal Phase.fetching base content) :
    Streaming (step pf w (Input.transport signal
        (Resumption.response true true status statusText))) signal (Phase.reading []) base
        content
      ∧ (step pf w (Input.transport signal
          (Resumption.response true true status statusText))).client = w.client := by
  obtain ⟨s1, s2, s3, s4, s5⟩ := hs
  have hstep : step pf w (Input.transport signal
      (Resumption.response true true status statusText))
      = { w with tasks := [{ signal := signal, phase := Phase.reading [] }] } := by
    simp [step, s1, resume, failure, setPhase]
  rw [hstep]
  exact ⟨⟨rfl, s2, s3, s4, s5⟩, rfl⟩

theorem step_chunk_streaming {V : Type} (pf : Platform V) (w : World V) (signal : Nat)
    (buffer text : JsString) (base : List Message) (content : JsString)
    (hs : Streaming w signal (Phase.reading buffer) base content) :
    Streaming (step pf w (Input.transport signal (Resumption.chunk text))) signal
        (Phase.reading (decode pf.parse buffer text).2) base
        (content ++ ((decode pf.parse buffer text).1.map (tokenText pf)).flatten)
      ∧ (step pf w (Input.transport signal (Resumption.chunk text))).client.citations
          = (latestCitations pf (decode pf.parse buffer text).1).getD w.client.citations
      ∧ (step pf w (Input.transport signal (Resumption.chunk text))).client.statusText
          = if doneDecoded (decode pf.parse buffer text).1 then "Done"
            else w.client.statusText := by
  obtain ⟨s1, s2, s3, s4, s5⟩ := hs
  have hstate := (parseSseChunk_state pf.parse (onEvent pf) buffer text
      { state := w.client, console := w.console }).trans
    (foldl_onEvent pf (decode pf.parse buffer text).1 w.client base content s2 s3)
  have hstep : step pf w (Input.transport signal (Resumption.chunk text))
      = { w with
          client := (parseSseChunk pf.parse (buffer ++ text) (onEvent pf)
            { state := w.client, console := w.console }).1.state
          console := (parseSseChunk pf.parse (buffer ++ text) (onEvent pf)
            { state := w.client, console := w.console }).1.console
          tasks := [{ signal := signal, phase := Phase.reading (decode pf.parse buffer text).2 }] } := by
    simp [step, s1, resume, failure, setPhase, parseSseChunk_remainder]
  rw [hstep]
  simp only
  rw [hstate]
  exact ⟨⟨rfl, rfl, s3, s4, s5⟩, rfl, rfl⟩

theorem step_done_streaming {V : Type} (pf : Platform V) (w : World V) (signal : Nat)
    (buffer : JsString) (base : List Message) (content : JsString)
    (hs : Streaming w signal (Phase.reading buffer) base content) :
    (step pf w (Input.transport signal Resumption.done)).tasks = []
      ∧ (step pf w (Input.transport signal Resumption.done)).client
          = finallyBlock w.client := by
  obtain ⟨s1, -⟩ := hs
  have hstep : step pf w (Input.transport signal Resumption.done)
      = { w with client := finallyBlock w.client, tasks := [] } := by
    simp [step, s1, resume, failure, finish]
  rw [hstep]
  exact ⟨rfl, rfl⟩

/-- The stream of a call followed through inputs that leave it going: the callback has run
on the events decoded from the chunks delivered, in order, and nothing else has touched
the transcript or the citations. -/
theorem run_streaming {V : Type} (pf : Platform V) (signal : Nat) (base : List Message)
    (post : List Input) (w : World V) (buffer content : JsString)
    (hs : Streaming w signal (Phase.reading buffer) base content)
    (hbuf : ¬ frameSep <:+: buffer)
    (hpost : ∀ e ∈ post, e.keepsStream signal = true) :
    Streaming (run pf w post) signal
        (Phase.reading (decode pf.parse buffer (chunksOf signal post).flatten).2) base
        (content ++ ((decode pf.parse buffer (chunksOf signal post).flatten).1.map
          (tokenText pf)).flatten)
      ∧ (run pf w post).client.citations
          = (latestCitations pf (decode pf.parse buffer (chunksOf signal post).flatten).1).getD
              w.client.citations
      ∧ (noHealthAnswer pf w post = true →
          (run pf w post).client.statusText
            = if doneDecoded (decode pf.parse buffer (chunksOf signal post).flatten).1
              then "Done" else w.client.statusText) := by
  induction post generalizing w buffer content with
  | nil =>
    simp only [chunksOf, List.filterMap_nil, List.flatten_nil, decode_nil pf.parse buffer hbuf,
      run, List.foldl_nil, List.map_nil, List.append_nil]
    exact ⟨hs, rfl, fun _ => rfl⟩
  | cons e post ih =>
    have hrest : ∀ x ∈ post, x.keepsStream signal = true :=
      fun x hx => hpost x (List.mem_cons_of_mem e hx)
    cases hct : chunkText signal e with
    | none =>
      have hbeside : e.beside signal = true := by
        have := hpost e (List.mem_cons_self e post)
        simpa [Input.keepsStream, hct] using this
      have hstep := view_step pf w e signal (Phase.reading buffer) base content hs hbeside
      have hs' := streaming_of_view w (step pf w e) signal _ base content hstep.1 hs
      have hrec := ih (step pf w e) buffer content hs' hbuf hrest
      have hchunks : chunksOf signal (e :: post) = chunksOf signal post := by
        simp [chunksOf, List.filterMap_cons, hct]
      have hcit : (step pf w e).client.citations = w.client.citations := by
        have := hstep.1
        simp only [view, Prod.mk.injEq] at this
        exact this.2.2.2.2.2
      rw [hchunks]
      simp only [run, List.foldl_cons] at hrec ⊢
      refine ⟨hrec.1, by rw [hrec.2.1, hcit], fun hall => ?_⟩
      simp only [noHealthAnswer, Bool.and_eq_true] at hall
      rw [hrec.2.2 hall.2, hstep.2 hall.1]
    | some text =>
      have he := chunkText_eq_some signal e text hct
      subst he
      have hstep := step_chunk_streaming pf w signal buffer text base content hs
      have hrec := ih (step pf w (Input.transport signal (Resumption.chunk text)))
        (decode pf.parse buffer text).2
        (content ++ ((decode pf.parse buffer text).1.map (tokenText pf)).flatten)
        hstep.1 (decode_remainder_no_terminator pf.parse buffer text) hrest
      have hchunks : (chunksOf signal (Input.transport signal (Resumption.chunk text) :: post)).flatten
          = text ++ (chunksOf signal post).flatten := by
        simp [chunksOf, List.filterMap_cons, hct]
      rw [hchunks, decode_thread]
      simp only [run, List.foldl_cons] at hrec ⊢
      refine ⟨?_, ?_, fun hall => ?_⟩
      · have := hrec.1
        simpa [List.map_append, List.flatten_append, List.append_assoc] using this
      · rw [hrec.2.1, hstep.2.1, latestCitations_append]
      · simp only [noHealthAnswer, Bool.and_eq_true] at hall
        rw [hrec.2.2 hall.2, hstep.2.2, doneDecoded_append]
        cases doneDecoded (decode pf.parse buffer text).1 <;>
          cases doneDecoded (decode pf.parse (decode pf.parse buffer text).2
            (chunksOf signal post).flatten).1 <;> rfl

/-- C7, as stated, fails: a `citations` event whose payload is `null` is decoded after one
carrying a citation, and the citations shown are still those of the earlier event; the
later event is only reported to the console. -/
theorem order_preservation_counterexample :
    streamEvents samplePlatform
        ["event: citations\ndata: \x7b\"citations\":[\"x\"]\x7d\n\n".toList,
         "event: citations\ndata: null\n\n".toList]
        = [("citations".toList, SampleValue.obj (some (SampleField.strs ["x".toList])) none),
           ("citations".toList, SampleValue.field SampleField.null)]
      ∧ (run samplePlatform (sendQuery sampleFields initialWorld)
          (streamInputs 0 200 "OK".toList
            ["event: citations\ndata: \x7b\"citations\":[\"x\"]\x7d\n\n".toList,
             "event: citations\ndata: null\n\n".toList])).client.citations
        = [SampleValue.field (SampleField.str "x".toList)]
      ∧ (run samplePlatform (sendQuery sampleFields initialWorld)
          (streamInputs 0 200 "OK".toList
            ["event: citations\ndata: \x7b\"citations\":[\"x\"]\x7d\n\n".toList,
             "event: citations\ndata: null\n\n".toList])).console
        = ["null".toList] := by
  decide

theorem finallyBlock_fields {V : Type} (c : Client V) :
    (finallyBlock c).controller = none
      ∧ (finallyBlock c).pendingAssistantIndex = none
      ∧ (finallyBlock c).sendDisabled = false
      ∧ (finallyBlock c).messages = c.messages
      ∧ (finallyBlock c).citations = c.citations
      ∧ (finallyBlock c).statusText = c.statusText := by
  simp only [finallyBlock, stopTimer]
  split <;> simp

theorem not_terminator_nil : ¬ frameSep <:+: ([] : JsString) := by
  decide

/-- The turn of a call started on a page with no call in flight, followed through its
response and inputs that leave its stream going. -/
theorem stream_state {V : Type} (pf : Platform V) (w0 : World V) (fields : Fields)
    (status : Nat) (statusText : JsString) (pre post : List Input)
    (hidle : w0.tasks = []) (hurl : jsTrim fields.serverUrl ≠ [])
    (hq : jsTrim fields.question ≠ [])
    (hpre : ∀ e ∈ pre, e.beside w0.client.created = true)
    (hpost : ∀ e ∈ post, e.keepsStream w0.client.created = true) :
    Streaming
        (run pf (sendQuery fields w0)
          (pre ++ Input.transport w0.client.created
            (Resumption.response true true status statusText) :: post))
        w0.client.created
        (Phase.reading (decode pf.parse [] (chunksOf w0.client.created post).flatten).2)
        (w0.client.messages ++ [{ role := Role.user, content := jsTrim fields.question }])
        ((streamEvents pf (chunksOf w0.client.created post)).map (tokenText pf)).flatten
      ∧ (run pf (sendQuery fields w0)
          (pre ++ Input.transport w0.client.created
            (Resumption.response true true status statusText) :: post)).client.citations
        = (latestCitations pf (streamEvents pf (chunksOf w0.client.created post))).getD []
      ∧ (noHealthAnswer pf (sendQuery fields w0)
            (pre ++ Input.transport w0.client.created
              (Resumption.response true true status statusText) :: post) = true →
          (run pf (sendQuery fields w0)
            (pre ++ Input.transport w0.client.created
              (Resumption.response true true status statusText) :: post)).client.statusText
          = if doneDecoded (streamEvents pf (chunksOf w0.client.created post)) then "Done"
            else "Streaming...") := by
  have hstart := streaming_sendQuery fields w0 hidle hurl hq
  have hfetch := run_fetching pf w0.client.created _ [] pre (sendQuery fields w0) hstart.1 hpre
  have hs1 := streaming_of_view _ (run pf (sendQuery fields w0) pre) _ _ _ _ hfetch.1 hstart.1
  have hresp := step_response_streaming pf (run pf (sendQuery fields w0) pre)
    w0.client.created _ [] status statusText hs1
  have hstream := run_streaming pf w0.client.created _ post _ [] [] hresp.1
    not_terminator_nil hpost
  have hcit : (run pf (sendQuery fields w0) pre).client.citations = [] := by
    have := hfetch.1
    simp only [view, Prod.mk.injEq] at this
    rw [this.2.2.2.2.2, hstart.2.1]
  have hrun : run pf (sendQuery fields w0)
      (pre ++ Input.transport w0.client.created
        (Resumption.response true true status statusText) :: post)
      = run pf (step pf (run pf (sendQuery fields w0) pre)
          (Input.transport w0.client.created
            (Resumption.response true true status statusText))) post := by
    rw [run_append]
    rfl
  rw [hrun]
  refine ⟨?_, ?_, fun hquiet => ?_⟩
  · have := hstream.1
    simpa [streamEvents] using this
  · rw [hstream.2.1, hresp.2, hcit]
    rfl
  · rw [noHealthAnswer_append] at hquiet
    simp only [noHealthAnswer, Input.isHealthAnswer, Bool.not_false, Bool.true_or, Bool.true_and,
      Bool.and_eq_true] at hquiet
    rw [hstream.2.2 hquiet.2, hresp.2, hfetch.2 hquiet.1, hstart.2.2]
    rfl

/-- When a `done` event is decoded after the last end of a health check, the status is
`Done`. -/
theorem stream_status_late {V : Type} (pf : Platform V) (w0 : World V) (fields : Fields)
    (status : Nat) (statusText : JsString) (pre mid late : List Input)
    (hidle : w0.tasks = []) (hurl : jsTrim fields.serverUrl ≠ [])
    (hq : jsTrim fields.question ≠ [])
    (hpre : ∀ e ∈ pre, e.beside w0.client.created = true)
    (hmid : ∀ e ∈ mid, e.keepsStream w0.client.created = true)
    (hlate : ∀ e ∈ late, e.keepsStream w0.client.created = true)
    (hquiet : noHealthAnswer pf
      (run pf (sendQuery fields w0)
        (pre ++ Input.transport w0.client.created
          (Resumption.response true true status statusText) :: mid)) late = true)
    (hdone : doneDecoded
      (decode pf.parse (decode pf.parse [] (chunksOf w0.client.created mid).flatten).2
        (chunksOf w0.client.created late).flatten).1 = true) :
    (run pf (sendQuery fields w0)
        (pre ++ Input.transport w0.client.created
          (Resumption.response true true status statusText)
            :: (mid ++ late))).client.statusText = "Done" := by
  have hstate := stream_state pf w0 fields status statusText pre mid hidle hurl hq hpre hmid
  have hstream := run_streaming pf w0.client.created _ late _ _ _ hstate.1
    (decode_remainder_no_terminator pf.parse [] _) hlate
  have hrun : run pf (sendQuery fields w0)
      (pre ++ Input.transport w0.client.created
        (Resumption.response true true status statusText) :: (mid ++ late))
      = run pf (run pf (sendQuery fields w0)
          (pre ++ Input.transport w0.client.created
            (Resumption.response true true status statusText) :: mid)) late := by
    rw [← run_append]
    simp
  rw [hrun, hstream.2.2 hquiet, hdone]
  rfl

/-- C7, amended. For every stream processed by a turn that is started while no other call
is in flight and during which no other turn is started, whatever other inputs arrive
meanwhile (clicks, key presses, health checks and their answers, animation frames), the
transcript and the citations after the chunks are those of the left fold, in decode order,
of the callback over the events decoded from the chunks; the transcript is the old
transcript, the user message, and the open assistant message whose content is the
concatenation in decode order of the token texts, other events adding nothing; the
citations shown are those rendered for the most recent `citations` event whose payload
could be read (a `citations` event with a `null` payload raises in the callback and leaves
the citations as they were), none if there is no such event; and the end of the stream
changes neither the transcript nor the citations. -/
theorem order_preservation {V : Type} (pf : Platform V) (w0 : World V) (fields : Fields)
    (status : Nat) (statusText : JsString) (pre post : List Input)
    (hidle : w0.tasks = []) (hurl : jsTrim fields.serverUrl ≠ [])
    (hq : jsTrim fields.question ≠ [])
    (hpre : ∀ e ∈ pre, e.beside w0.client.created = true)
    (hpost : ∀ e ∈ post, e.keepsStream w0.client.created = true) :
    (run pf (sendQuery fields w0)
        (pre ++ Input.transport w0.client.created
          (Resumption.response true true status statusText) :: post)).client.messages
        = ((streamEvents pf (chunksOf w0.client.created post)).foldl
            (applyEvent (onEvent pf)) (sendQuery fields w0).client).messages
      ∧ (run pf (sendQuery fields w0)
          (pre ++ Input.transport w0.client.created
            (Resumption.response true true status statusText) :: post)).client.citations
        = ((streamEvents pf (chunksOf w0.client.created post)).foldl
            (applyEvent (onEvent pf)) (sendQuery fields w0).client).citations
      ∧ (run pf (sendQuery fields w0)
          (pre ++ Input.transport w0.client.created
            (Resumption.response true true status statusText) :: post)).client.messages
        = w0.client.messages
            ++ [{ role := Role.user, content := jsTrim fields.question },
                { role := Role.assistant,
                  content := ((streamEvents pf (chunksOf w0.client.created post)).map
                    (tokenText pf)).flatten }]
      ∧ (run pf (sendQuery fields w0)
          (pre ++ Input.transport w0.client.created
            (Resumption.response true true status statusText) :: post)).client.citations
        = (latestCitations pf (streamEvents pf (chunksOf w0.client.created post))).getD []
      ∧ (run pf (sendQuery fields w0)
          (pre ++ Input.transport w0.client.created
            (Resumption.response true true status statusText)
              :: post)).client.pendingAssistantIndex
        = some (w0.client.messages.length + 1)
      ∧ (run pf (sendQuery fields w0)
          ((pre ++ Input.transport w0.client.created
              (Resumption.response true true status statusText) :: post)
            ++ [Input.transport w0.client.created Resumption.done])).client.messages
        = (run pf (sendQuery fields w0)
            (pre ++ Input.transport w0.client.created
              (Resumption.response true true status statusText) :: post)).client.messages
      ∧ (run pf (sendQuery fields w0)
          ((pre ++ Input.transport w0.client.created
              (Resumption.response true true status statusText) :: post)
            ++ [Input.transport w0.client.created Resumption.done])).client.citations
        = (run pf (sendQuery fields w0)
            (pre ++ Input.transport w0.client.created
              (Resumption.response true true status statusText) :: post)).client.citations := by
  have hstate := stream_state pf w0 fields status statusText pre post hidle hurl hq hpre hpost
  have hstart := streaming_sendQuery fields w0 hidle hurl hq
  have hfold := foldl_onEvent pf (streamEvents pf (chunksOf w0.client.created post))
    (sendQuery fields w0).client _ [] hstart.1.2.1 hstart.1.2.2.1
  have hdone := step_done_streaming pf _ _ _ _ _ hstate.1
  have hfin := finallyBlock_fields
    (run pf (sendQuery fields w0)
      (pre ++ Input.transport w0.client.created
        (Resumption.response true true status statusText) :: post)).client
  have hrun : run pf (sendQuery fields w0)
      ((pre ++ Input.transport w0.client.created
          (Resumption.response true true status statusText) :: post)
        ++ [Input.transport w0.client.created Resumption.done])
      = step pf (run pf (sendQuery fields w0)
          (pre ++ Input.transport w0.client.created
            (Resumption.response true true status statusText) :: post))
          (Input.transport w0.client.created Resumption.done) := by
    rw [run_append]
    rfl
  obtain ⟨⟨-, hm, hp, -, -⟩, hc, -⟩ := hstate
  refine ⟨?_, ?_, ?_, hc, ?_, ?_, ?_⟩
  · rw [hm, hfold]
    simp
  · rw [hc, hfold, hstart.2.1]
  · rw [hm]
    simp
  · rw [hp]
    simp
  · rw [hrun, hdone.2, hfin.2.2.2.1]
  · rw [hrun, hdone.2, hfin.2.2.2.2.1]

/-- C7, amended, at the stream of tokens A and B, a citations event, then token C, received
in three chunks cut inside frames, with a click on the disabled send button, a key press,
a health check with its answer and an animation frame arriving in between. -/
theorem order_preservation_witness :
    (run samplePlatform (sendQuery sampleFields initialWorld)
        ([Input.clickSend sampleFields, Input.clickHealth "http://localhost:8000".toList]
          ++ Input.transport 0 (Resumption.response true true 200 "OK".toList)
          :: [chunkInput 0 "event: token\ndata: \x7b\"token\":\"A\"\x7d\n\nevent: token\nda".toList,
              Input.healthSettled "ok" true, Input.animationFrame 1,
              chunkInput 0 "ta: \x7b\"token\":\"B\"\x7d\n\nevent: citations\n".toList,
              Input.keydown false "a" sampleFields,
              chunkInput 0
                "data: \x7b\"citations\":[\"x\"]\x7d\n\nevent: token\ndata: \x7b\"token\":\"C\"\x7d\n\n".toList
             ])).client.messages
      = [{ role := Role.user, content := "hi".toList },
         { role := Role.assistant, content := "ABC".toList }] :=
  (order_preservation samplePlatform initialWorld sampleFields 200 "OK".toList
    [Input.clickSend sampleFields, Input.clickHealth "http://localhost:8000".toList]
    [chunkInput 0 "event: token\ndata: \x7b\"token\":\"A\"\x7d\n\nevent: token\nda".toList,
     Input.healthSettled "ok" true, Input.animationFrame 1,
     chunkInput 0 "ta: \x7b\"token\":\"B\"\x7d\n\nevent: citations\n".toList,
     Input.keydown false "a" sampleFields,
     chunkInput 0
       "data: \x7b\"citations\":[\"x\"]\x7d\n\nevent: token\ndata: \x7b\"token\":\"C\"\x7d\n\n".toList]
    rfl (by decide) (by decide) (by decide) (by decide)).2.2.1

/-- C6, as stated, fails: a stream that ends without failure or cancellation and without a
`done` event leaves the status at `Streaming...` although the turn is over; and when the
answer to a health check arrives after the `done` event, the status at the end of the
stream is that of the health check. -/
theorem completion_on_end_of_stream_counterexample :
    (run samplePlatform (sendQuery sampleFields initialWorld)
        (streamInputs 0 200 "OK".toList
            ["event: token\ndata: \x7b\"token\":\"A\"\x7d\n\n".toList]
          ++ [Input.transport 0 Resumption.done])).tasks = []
      ∧ (run samplePlatform (sendQuery sampleFields initialWorld)
        (streamInputs 0 200 "OK".toList
            ["event: token\ndata: \x7b\"token\":\"A\"\x7d\n\n".toList]
          ++ [Input.transport 0 Resumption.done])).client.statusText = "Streaming..."
      ∧ (run samplePlatform (sendQuery sampleFields initialWorld)
        (streamInputs 0 200 "OK".toList
            ["event: token\ndata: \x7b\"token\":\"A\"\x7d\n\n".toList]
          ++ [Input.transport 0 Resumption.done])).client.statusText ≠ "Done"
      ∧ (run samplePlatform (sendQuery sampleFields initialWorld)
        [Input.clickHealth "http://localhost:8000".toList,
         Input.transport 0 (Resumption.response true true 200 "OK".toList),
         chunkInput 0 "event: done\ndata: \x7b\x7d\n\n".toList,
         Input.healthSettled "ok" true,
         Input.transport 0 Resumption.done]).client.statusText = "Health: ok" := by
  decide

/-- C6, amended. For a turn that is started while no other call is in flight and during
which no other turn is started, whatever other inputs arrive meanwhile, and for every
sequence of chunks after which the transport signals end-of-stream with no failure: the
turn ends through the normal exit, that is, the call is over, the controller and the
open-message pointer are cleared, the send button is enabled again and no error text is
written, the transcript being the old transcript, the user message and the assistant
message holding the token texts; if no health check comes to its end during the turn, the
status is `Done` exactly when a `done` event was decoded from the stream and is still
`Streaming...` otherwise; and the status is `Done` whenever a `done` event is decoded
after the last end of a health check. -/
theorem completion_on_end_of_stream {V : Type} (pf : Platform V) (w0 : World V)
    (fields : Fields) (status : Nat) (statusText : JsString) (pre post : List Input)
    (hidle : w0.tasks = []) (hurl : jsTrim fields.serverUrl ≠ [])
    (hq : jsTrim fields.question ≠ [])
    (hpre : ∀ e ∈ pre, e.beside w0.client.created = true)
    (hpost : ∀ e ∈ post, e.keepsStream w0.client.created = true) :
    (run pf (sendQuery fields w0)
        ((pre ++ Input.transport w0.client.created
            (Resumption.response true true status statusText) :: post)
          ++ [Input.transport w0.client.created Resumption.done])).tasks = []
      ∧ (run pf (sendQuery fields w0)
        ((pre ++ Input.transport w0.client.created
            (Resumption.response true true status statusText) :: post)
          ++ [Input.transport w0.client.created Resumption.done])).client.controller = none
      ∧ (run pf (sendQuery fields w0)
        ((pre ++ Input.transport w0.client.created
            (Resumption.response true true status statusText) :: post)
          ++ [Input.transport w0.client.created
            Resumption.done])).client.pendingAssistantIndex = none
      ∧ (run pf (sendQuery fields w0)
        ((pre ++ Input.transport w0.client.created
            (Resumption.response true true status statusText) :: post)
          ++ [Input.transport w0.client.created Resumption.done])).client.sendDisabled = false
      ∧ (run pf (sendQuery fields w0)
        ((pre ++ Input.transport w0.client.created
            (Resumption.response true true status statusText) :: post)
          ++ [Input.transport w0.client.created Resumption.done])).client.messages
        = w0.client.messages
            ++ [{ role := Role.user, content := jsTrim fields.question },
                { role := Role.assistant,
                  content := ((streamEvents pf (chunksOf w0.client.created post)).map
                    (tokenText pf)).flatten }]
      ∧ (noHealthAnswer pf (sendQuery fields w0)
            (pre ++ Input.transport w0.client.created
              (Resumption.response true true status statusText) :: post) = true →
          (run pf (sendQuery fields w0)
            ((pre ++ Input.transport w0.client.created
                (Resumption.response true true status statusText) :: post)
              ++ [Input.transport w0.client.created Resumption.done])).client.statusText
          = if doneDecoded (streamEvents pf (chunksOf w0.client.created post)) then "Done"
            else "Streaming...")
      ∧ ∀ mid late : List Input, post = mid ++ late →
          noHealthAnswer pf
            (run pf (sendQuery fields w0)
              (pre ++ Input.transport w0.client.created
                (Resumption.response true true status statusText) :: mid)) late = true →
          doneDecoded
            (decode pf.parse (decode pf.parse [] (chunksOf w0.client.created mid).flatten).2
              (chunksOf w0.client.created late).flatten).1 = true →
          (run pf (sendQuery fields w0)
            ((pre ++ Input.transport w0.client.created
                (Resumption.response true true status statusText) :: post)
              ++ [Input.transport w0.client.created Resumption.done])).client.statusText
          = "Done" := by
  have hstate := stream_state pf w0 fields status statusText pre post hidle hurl hq hpre hpost
  obtain ⟨hs, -, hstatus⟩ := hstate
  have hdone := step_done_streaming pf _ _ _ _ _ hs
  have hfin := finallyBlock_fields
    (run pf (sendQuery fields w0)
      (pre ++ Input.transport w0.client.created
        (Resumption.response true true status statusText) :: post)).client
  have hrun : run pf (sendQuery fields w0)
      ((pre ++ Input.transport w0.client.created
          (Resumption.response true true status statusText) :: post)
        ++ [Input.transport w0.client.created Resumption.done])
      = step pf (run pf (sendQuery fields w0)
          (pre ++ Input.transport w0.client.created
            (Resumption.response true true status statusText) :: post))
          (Input.transport w0.client.created Resumption.done) := by
    rw [run_append]
    rfl
  rw [hrun, hdone.2]
  refine ⟨hdone.1, hfin.1, hfin.2.1, hfin.2.2.1, ?_, fun hquiet => ?_,
    fun mid late hsplit hquiet hlate => ?_⟩
  · rw [hfin.2.2.2.1, hs.2.1]
    simp
  · rw [hfin.2.2.2.2.2, hstatus hquiet]
  · subst hsplit
    rw [hfin.2.2.2.2.2]
    exact stream_status_late pf w0 fields status statusText pre mid late hidle hurl hq hpre
      (fun e he => hpost e (List.mem_append_left late he))
      (fun e he => hpost e (List.mem_append_right mid he)) hquiet hlate

/-- C6, amended, at a stream that carries a `done` event before it ends, with a click on
the disabled send button, a key press, an animation frame and a health check whose answer
arrives before the `done` event. -/
theorem completion_on_end_of_stream_witness :
    (run samplePlatform (sendQuery sampleFields initialWorld)
        (([Input.clickSend sampleFields, Input.clickHealth "http://localhost:8000".toList]
            ++ Input.transport 0 (Resumption.response true true 200 "OK".toList)
            :: [chunkInput 0 "event: token\ndata: \x7b\"token\":\"A\"\x7d\n\nevent: do".toList,
                Input.healthSettled "ok" true, Input.animationFrame 1,
                Input.keydown false "a" sampleFields,
                chunkInput 0 "ne\ndata: \x7b\x7d\n\n".toList])
          ++ [Input.transport 0 Resumption.done])).client.statusText = "Done" :=
  (completion_on_end_of_stream samplePlatform initialWorld sampleFields 200 "OK".toList
    [Input.clickSend sampleFields, Input.clickHealth "http://localhost:8000".toList]
    [chunkInput 0 "event: token\ndata: \x7b\"token\":\"A\"\x7d\n\nevent: do".toList,
     Input.healthSettled "ok" true, Input.animationFrame 1,
     Input.keydown false "a" sampleFields,
     chunkInput 0 "ne\ndata: \x7b\x7d\n\n".toList]
    rfl (by decide) (by decide) (by decide) (by decide)).2.2.2.2.2.2
    [chunkInput 0 "event: token\ndata: \x7b\"token\":\"A\"\x7d\n\nevent: do".toList,
     Input.healthSettled "ok" true]
    [Input.animationFrame 1, Input.keydown false "a" sampleFields,
     chunkInput 0 "ne\ndata: \x7b\x7d\n\n".toList]
    rfl (by decide) (by decide)

/-! ## Starting a turn -/

theorem getElem?_append_pair {α : Type} (l : List α) (a b : α) :
    (l ++ [a, b])[l.length + 1]? = some b := by
  induction l with
  | nil => rfl
  | cons x l ih => simpa using ih

/-- C8. Start precondition and effect: when the query or the base address is empty after
trimming, `sendQuery` changes nothing at all; otherwise the transcript becomes the old
transcript followed by the user message holding the trimmed query and an assistant message
with empty content, the open-message pointer is the index of that last message, a fresh
controller is installed, the status is `Streaming...`, a call is suspended at the request,
and the request carries the old transcript as history. -/
theorem start_precondition_and_effect {V : Type} (fields : Fields) (w : World V) :
    ((jsTrim fields.question = [] ∨ jsTrim fields.serverUrl = []) → sendQuery fields w = w)
      ∧ (jsTrim fields.question ≠ [] → jsTrim fields.serverUrl ≠ [] →
          (sendQuery fields w).client.messages
              = w.client.messages
                ++ [{ role := Role.user, content := jsTrim fields.question },
                    { role := Role.assistant, content := [] }]
            ∧ (sendQuery fields w).client.pendingAssistantIndex
                = some ((sendQuery fields w).client.messages.length - 1)
            ∧ (sendQuery fields w).client.messages[w.client.messages.length + 1]?
                = some { role := Role.assistant, content := [] }
            ∧ (sendQuery fields w).client.controller = some w.client.created
            ∧ (sendQuery fields w).client.aborted = w.client.aborted
            ∧ (sendQuery fields w).client.statusText = "Streaming..."
            ∧ (sendQuery fields w).tasks
                = w.tasks ++ [{ signal := w.client.created, phase := Phase.fetching }]
            ∧ (sendQuery fields w).client.requests
                = w.client.requests
                  ++ [{ url := jsTrim fields.serverUrl ++ "/query".toList
                        query := jsTrim fields.question
                        top_k := topKOrDefault fields.topK
                        history := w.client.messages
                        signal := w.client.created }]) := by
  constructor
  · intro h
    have h2 : jsTrim fields.serverUrl = [] ∨ jsTrim fields.question = [] := h.symm
    simp [sendQuery, h2]
  · intro hq hurl
    have hclient := sendQuery_client fields w hurl hq
    have htasks := sendQuery_tasks fields w hurl hq
    rw [hclient]
    refine ⟨by simp, by simp, ?_, rfl, rfl, rfl, htasks.1, rfl⟩
    have := getElem?_append_pair w.client.messages
      { role := Role.user, content := jsTrim fields.question }
      { role := Role.assistant, content := [] }
    simpa using this

/-- C8 at an empty question, which changes nothing, and at a valid query on the page as
loaded. -/
theorem start_precondition_and_effect_witness :
    sendQuery { sampleFields with question := "  ".toList } (initialWorld : World SampleValue)
        = initialWorld
      ∧ (sendQuery sampleFields (initialWorld : World SampleValue)).client.messages
        = [{ role := Role.user, content := "hi".toList },
           { role := Role.assistant, content := [] }] :=
  ⟨(start_precondition_and_effect { sampleFields with question := "  ".toList }
      (initialWorld : World SampleValue)).1 (Or.inl (by decide)),
   ((start_precondition_and_effect sampleFields (initialWorld : World SampleValue)).2
      (by decide) (by decide)).1⟩

/-! ## At most one turn through the send button -/

theorem control_applyEvent {V : Type} (pf : Platform V) (c : Client V) (e : Event V) :
    control (applyEvent (onEvent pf) c e) = control c := by
  obtain ⟨name, payload⟩ := e
  simp only [applyEvent, onEvent]
  split
  · cases pf.citationsOf payload with
    | none => rfl
    | some field =>
      simp only [renderCitations]
      cases citationsOrEmpty pf field with
      | none => rfl
      | some v =>
        simp only
        cases pf.items v <;> rfl
  · split
    · cases hp : c.pendingAssistantIndex with
      | none => rfl
      | some i =>
        simp only [appendToken]
        cases hm : c.messages[i]? with
        | none => rfl
        | some m =>
          simp only
          cases pf.tokenOf payload with
          | none => rfl
          | some field =>
            simp only
            cases tokenOperand pf field with
            | none => rfl
            | some t => simp [control, hp]
    · split <;> rfl

theorem control_foldl {V : Type} (pf : Platform V) (events : List (Event V)) (c : Client V) :
    control (events.foldl (applyEvent (onEvent pf)) c) = control c := by
  induction events generalizing c with
  | nil => rfl
  | cons e events ih => rw [List.foldl_cons, ih, control_applyEvent]

theorem control_parseSseChunk {V : Type} (pf : Platform V) (buffer : JsString)
    (env : Env (Client V)) :
    control (parseSseChunk pf.parse buffer (onEvent pf) env).1.state = control env.state := by
  have h := parseSseChunk_state pf.parse (onEvent pf) [] buffer env
  simp only [List.nil_append] at h
  rw [h, control_foldl]

theorem lone_of_control {V : Type} (w w' : World V) (t t' : Task)
    (hw' : w'.tasks = [t']) (hsig : t'.signal = t.signal)
    (hcontrol : control w'.client = control w.client)
    (hd : w.client.sendDisabled = true) (hc : w.client.controller = some t.signal)
    (hi : ∃ i, w.client.pendingAssistantIndex = some i ∧ i < w.client.messages.length) :
    Lone w' := by
  simp only [control, Prod.mk.injEq] at hcontrol
  obtain ⟨h1, h2, h3, -, h6, -⟩ := hcontrol
  refine Or.inr ⟨t', hw', ?_, ?_, ?_⟩
  · rw [h3, hd]
  · rw [h1, hc, hsig]
  · obtain ⟨i, hi1, hi2⟩ := hi
    exact ⟨i, by rw [h2, hi1], by rw [h6]; exact hi2⟩

theorem lone_resume {V : Type} (pf : Platform V) (w : World V) (t : Task) (r : Resumption)
    (hw : w.tasks = [t]) (hd : w.client.sendDisabled = true)
    (hc : w.client.controller = some t.signal)
    (hi : ∃ i, w.client.pendingAssistantIndex = some i ∧ i < w.client.messages.length) :
    Lone (resume pf w t r) := by
  unfold resume
  cases hf : failure t.phase r with
  | some message =>
    left
    simp [finish, hw]
  | none =>
    simp only
    obtain ⟨signal, phase⟩ := t
    cases phase with
    | fetching =>
      cases r with
      | response ok hasBody status statusText =>
        simp only
        exact lone_of_control w _ _ { signal := signal, phase := Phase.reading [] }
          (by simp [setPhase, hw]) rfl rfl hd hc hi
      | rejected message => simp [failure] at hf
      | chunk text => exact Or.inr ⟨_, hw, hd, hc, hi⟩
      | done => exact Or.inr ⟨_, hw, hd, hc, hi⟩
    | reading buffer =>
      cases r with
      | response ok hasBody status statusText => exact Or.inr ⟨_, hw, hd, hc, hi⟩
      | rejected message => simp [failure] at hf
      | chunk text =>
        simp only
        refine lone_of_control w _ _
          { signal := signal, phase := Phase.reading
              (parseSseChunk pf.parse (buffer ++ text) (onEvent pf)
                { state := w.client, console := w.console }).2 }
          (by simp [setPhase, hw]) rfl ?_ hd hc hi
        exact control_parseSseChunk pf (buffer ++ text) { state := w.client, console := w.console }
      | done =>
        left
        simp [finish, hw]

theorem lone_sendQuery {V : Type} (fields : Fields) (w : World V) (hw : w.tasks = []) :
    Lone (sendQuery fields w) := by
  by_cases hvalid : jsTrim fields.serverUrl = [] ∨ jsTrim fields.question = []
  · left
    simp [sendQuery, hvalid, hw]
  · have hurl : jsTrim fields.serverUrl ≠ [] := fun h => hvalid (Or.inl h)
    have hq : jsTrim fields.question ≠ [] := fun h => hvalid (Or.inr h)
    have htasks := (sendQuery_tasks fields w hurl hq).1
    rw [hw, List.nil_append] at htasks
    refine Or.inr ⟨_, htasks, ?_, ?_, ⟨w.client.messages.length + 1, ?_, ?_⟩⟩ <;>
      simp [sendQuery_client fields w hurl hq]

theorem lone_of_view {V : Type} (w w' : World V) (hw : Lone w) (htasks : w'.tasks = w.tasks)
    (hcontrol : control w'.client = control w.client) : Lone w' := by
  rcases hw with h0 | ⟨t, ht, hd, hc, hi⟩
  · exact Or.inl (by rw [htasks, h0])
  · exact lone_of_control w w' t t (by rw [htasks, ht]) rfl hcontrol hd hc hi

theorem lone_step {V : Type} (pf : Platform V) (w : World V) (e : Input) (hw : Lone w)
    (he : e.shortcutStart = true → w.tasks = []) : Lone (step pf w e) := by
  cases e with
  | clickSend fields =>
    simp only [step]
    split
    · exact hw
    · rename_i hdis
      rcases hw with hw | ⟨t, -, hd, -⟩
      · exact lone_sendQuery fields w hw
      · exact absurd hd hdis
  | keydown metaKey key fields =>
    simp only [step]
    split
    · rename_i hkey
      cases hvalid : fields.valid with
      | false =>
        rw [sendQuery_of_not_valid fields w hvalid]
        exact hw
      | true =>
        exact lone_sendQuery fields w (he (by simp [Input.shortcutStart, hkey, hvalid]))
    · exact hw
  | clickStop =>
    refine lone_of_view w _ hw rfl ?_
    simp only [step, stopQuery]
    cases hc : w.client.controller <;> simp [control, hc]
  | transport signal r =>
    simp only [step]
    rcases hw with hw | ⟨t, ht, hd, hc, hi⟩
    · rw [hw]
      exact Or.inl hw
    · rw [ht]
      by_cases hs : t.signal = signal
      · simp only [List.find?, hs, decide_True]
        exact lone_resume pf w t r ht hd hc hi
      · simp only [List.find?, hs, decide_False]
        exact Or.inr ⟨t, ht, hd, hc, hi⟩
  | clickHealth serverUrl =>
    refine lone_of_view w _ hw ?_ ?_ <;>
      (simp only [step, checkHealth]; split <;> rfl)
  | healthSettled rendered isOk =>
    refine lone_of_view w _ hw ?_ ?_ <;>
      (simp only [step, healthResult]; split <;> rfl)
  | healthFailed message =>
    refine lone_of_view w _ hw ?_ ?_ <;>
      (simp only [step, healthError]; split <;> rfl)
  | animationFrame handle =>
    refine lone_of_view w _ hw ?_ ?_ <;>
      (simp only [step, updateTimer, requestFrame]; split <;> try split) <;> rfl

theorem lone_run {V : Type} (pf : Platform V) (inputs : List Input) (w : World V)
    (hw : Lone w) (h : shortcutsWhenIdle pf w inputs = true) : Lone (run pf w inputs) := by
  induction inputs generalizing w with
  | nil => exact hw
  | cons e inputs ih =>
    simp only [shortcutsWhenIdle, Bool.and_eq_true, Bool.or_eq_true, Bool.not_eq_true',
      List.isEmpty_iff] at h
    simp only [run, List.foldl_cons]
    refine ih (step pf w e) (lone_step pf w e hw ?_) h.2
    intro hstart
    rcases h.1 with hno | hidle
    · rw [hstart] at hno
      exact absurd hno (by simp)
    · exact hidle

/-- C5, as stated, fails: after a click on the send button, the keyboard shortcut starts a
second call of `sendQuery` while the first is still waiting; both are in flight, no
controller has been aborted and the status is `Streaming...`, not `Stopped`. -/
theorem at_most_one_session_counterexample :
    (run samplePlatform initialWorld
        [Input.clickSend sampleFields, Input.keydown true "Enter" sampleFields]).tasks
        = [{ signal := 0, phase := Phase.fetching }, { signal := 1, phase := Phase.fetching }]
      ∧ (run samplePlatform initialWorld
        [Input.clickSend sampleFields, Input.keydown true "Enter" sampleFields]).client.aborted
        = []
      ∧ (run samplePlatform initialWorld
        [Input.clickSend sampleFields, Input.keydown true "Enter" sampleFields]).client.statusText
        = "Streaming..." := by
  decide

/-- C5, amended. In every state reached from a page with no call in flight, such as the
loaded page, through any inputs among which a start through the keyboard shortcut is made
only while no call of `sendQuery` is in flight, at most one call of `sendQuery` is in
flight; while one is, the send button is disabled and a click on it changes nothing, so
that a new turn starts only after the previous one has ended; and `sendQuery` itself
cancels nothing: it aborts no controller. -/
theorem at_most_one_session {V : Type} (pf : Platform V) (w0 : World V) (inputs : List Input)
    (hidle : w0.tasks = []) (h : shortcutsWhenIdle pf w0 inputs = true) :
    (run pf w0 inputs).tasks.length ≤ 1
      ∧ ((run pf w0 inputs).tasks ≠ [] →
          (run pf w0 inputs).client.sendDisabled = true
            ∧ ∀ fields, step pf (run pf w0 inputs) (Input.clickSend fields) = run pf w0 inputs)
      ∧ ∀ (fields : Fields) (w : World V),
          (sendQuery fields w).client.aborted = w.client.aborted := by
  have hlone := lone_run pf inputs w0 (Or.inl hidle) h
  refine ⟨?_, ?_, fun fields w => ?_⟩
  · rcases hlone with h0 | ⟨t, ht, -⟩
    · rw [h0]
      simp
    · rw [ht]
      simp
  · intro hne
    rcases hlone with h0 | ⟨t, ht, hd, -⟩
    · exact absurd h0 hne
    · exact ⟨hd, fun fields => by simp [step, hd]⟩
  · by_cases hvalid : jsTrim fields.serverUrl = [] ∨ jsTrim fields.question = []
    · simp [sendQuery, hvalid]
    · have hurl : jsTrim fields.serverUrl ≠ [] := fun h => hvalid (Or.inl h)
      have hq : jsTrim fields.question ≠ [] := fun h => hvalid (Or.inr h)
      rw [sendQuery_client fields w hurl hq]

/-- C5, amended, at a turn started by the keyboard shortcut on the loaded page, a click on
the send button while its request is pending, the stream running to its end, a health
check, and a second turn started by the shortcut once the first is over: one call is in
flight, the second turn. -/
theorem at_most_one_session_witness :
    (run samplePlatform initialWorld
        [Input.keydown true "Enter" sampleFields, Input.clickSend sampleFields,
         Input.transport 0 (Resumption.response true true 200 "OK".toList),
         Input.clickHealth "http://localhost:8000".toList,
         Input.transport 0 Resumption.done, Input.healthSettled "ok" true,
         Input.keydown true "Enter" sampleFields]).tasks.length ≤ 1
      ∧ (run samplePlatform initialWorld
        [Input.keydown true "Enter" sampleFields, Input.clickSend sampleFields,
         Input.transport 0 (Resumption.response true true 200 "OK".toList),
         Input.clickHealth "http://localhost:8000".toList,
         Input.transport 0 Resumption.done, Input.healthSettled "ok" true,
         Input.keydown true "Enter" sampleFields]).tasks
        = [{ signal := 1, phase := Phase.fetching }] :=
  ⟨(at_most_one_session samplePlatform initialWorld
      [Input.keydown true "Enter" sampleFields, Input.clickSend sampleFields,
       Input.transport 0 (Resumption.response true true 200 "OK".toList),
       Input.clickHealth "http://localhost:8000".toList,
       Input.transport 0 Resumption.done, Input.healthSettled "ok" true,
       Input.keydown true "Enter" sampleFields] rfl (by decide)).1,
    by decide⟩

/-! ## The failure of a turn -/

/-- When the only call in flight fails, on a page reached from one with no call in flight
through inputs among which the keyboard shortcut starts a turn only while none is in flight:
the call ends and releases the controller, the pointer and the send button; if its signal
was aborted the status is `Stopped` and the transcript is untouched; otherwise the status
is `Error` and the content of the open message is the error text. -/
theorem failure_of_lone_turn {V : Type} (pf : Platform V) (w0 : World V)
    (inputs : List Input) (t : Task) (r : Resumption) (message : JsString)
    (hidle : w0.tasks = []) (h : shortcutsWhenIdle pf w0 inputs = true)
    (ht : t ∈ (run pf w0 inputs).tasks)
    (hf : failure t.phase r = some message) :
    (step pf (run pf w0 inputs) (Input.transport t.signal r)).tasks = []
      ∧ (step pf (run pf w0 inputs) (Input.transport t.signal r)).client.controller
          = none
      ∧ (step pf (run pf w0 inputs)
          (Input.transport t.signal r)).client.pendingAssistantIndex = none
      ∧ (step pf (run pf w0 inputs) (Input.transport t.signal r)).client.sendDisabled
          = false
      ∧ ∃ i m, (run pf w0 inputs).client.pendingAssistantIndex = some i
          ∧ (run pf w0 inputs).client.messages[i]? = some m
          ∧ (t.signal ∈ (run pf w0 inputs).client.aborted →
              (step pf (run pf w0 inputs)
                  (Input.transport t.signal r)).client.statusText = "Stopped"
                ∧ (step pf (run pf w0 inputs)
                    (Input.transport t.signal r)).client.messages
                  = (run pf w0 inputs).client.messages)
          ∧ (t.signal ∉ (run pf w0 inputs).client.aborted →
              (step pf (run pf w0 inputs)
                  (Input.transport t.signal r)).client.statusText = "Error"
                ∧ (step pf (run pf w0 inputs)
                    (Input.transport t.signal r)).client.messages
                  = (run pf w0 inputs).client.messages.set i
                      { m with content := "Error: ".toList ++ message }) := by
  have hlone := lone_run pf inputs w0 (Or.inl hidle) h
  generalize run pf w0 inputs = w at ht hlone ⊢
  rcases hlone with h0 | ⟨t', ht', hd, hc, i, hi, hlt⟩
  · rw [h0] at ht
    simp at ht
  · rw [ht'] at ht
    have htt : t = t' := by simpa using ht
    subst htt
    have hstep : step pf w (Input.transport t.signal r)
        = finish t.signal { w with client := finallyBlock (catchBlock message w.client) } := by
      simp [step, ht', resume, hf]
    obtain ⟨m, hm⟩ : ∃ m, w.client.messages[i]? = some m :=
      ⟨w.client.messages[i], List.getElem?_eq_getElem hlt⟩
    rw [hstep]
    refine ⟨by simp [finish, ht'], by simp [finish, finallyBlock], by simp [finish, finallyBlock],
      ?_, i, m, hi, hm, ?_, ?_⟩
    · simp only [finish, finallyBlock, stopTimer]
      split <;> rfl
    · intro hab
      have hcatch : catchBlock message w.client = setStatus "Stopped" "warn" w.client := by
        simp [catchBlock, hc, hab]
      rw [hcatch]
      simp only [finish, finallyBlock, stopTimer, setStatus]
      split <;> exact ⟨rfl, rfl⟩
    · intro hab
      have hcatch : catchBlock message w.client
          = { setStatus "Error" "error" w.client with
              messages := w.client.messages.set i
                { m with content := "Error: ".toList ++ message } } := by
        simp [catchBlock, hc, hab, setStatus, hi, hm]
      rw [hcatch]
      simp only [finish, finallyBlock, stopTimer, setStatus]
      split <;> exact ⟨rfl, rfl⟩

/-- The error text written for a response rejected at line 131 is not empty and contains
the status of the response. -/
theorem error_text_contains_status (status : Nat) (statusText : JsString) :
    "Error: ".toList ++ requestFailed status statusText ≠ []
      ∧ (toString status).toList <:+: "Error: ".toList ++ requestFailed status statusText := by
  constructor
  · simp
  · refine ⟨"Error: ".toList ++ "Request failed: ".toList, " ".toList ++ statusText, ?_⟩
    simp [requestFailed, List.append_assoc]

/-- C4 at a double start.  A click on the send button starts a first turn; the keyboard
shortcut starts a second one while the first waits for its response; the second stream
runs to its end, which clears the shared controller; then the request of the first turn
fails, without any cancellation.  Just before that failure the first call is in flight and
no controller is aborted; after it the call is over, the status is still `Done`, not
`Error`, and no message holds an error text. -/
theorem cancellation_versus_failure_double_start :
    (run samplePlatform initialWorld
        [Input.clickSend sampleFields, Input.keydown true "Enter" sampleFields,
         Input.transport 1 (Resumption.response true true 200 "OK".toList),
         chunkInput 1 "event: done\ndata: \x7b\x7d\n\n".toList,
         Input.transport 1 Resumption.done]).tasks
        = [{ signal := 0, phase := Phase.fetching }]
      ∧ (run samplePlatform initialWorld
        [Input.clickSend sampleFields, Input.keydown true "Enter" sampleFields,
         Input.transport 1 (Resumption.response true true 200 "OK".toList),
         chunkInput 1 "event: done\ndata: \x7b\x7d\n\n".toList,
         Input.transport 1 Resumption.done]).client.aborted = []
      ∧ failure Phase.fetching (Resumption.rejected "Failed to fetch".toList)
        = some "Failed to fetch".toList
      ∧ (run samplePlatform initialWorld
        [Input.clickSend sampleFields, Input.keydown true "Enter" sampleFields,
         Input.transport 1 (Resumption.response true true 200 "OK".toList),
         chunkInput 1 "event: done\ndata: \x7b\x7d\n\n".toList,
         Input.transport 1 Resumption.done,
         Input.transport 0 (Resumption.rejected "Failed to fetch".toList)]).tasks = []
      ∧ (run samplePlatform initialWorld
        [Input.clickSend sampleFields, Input.keydown true "Enter" sampleFields,
         Input.transport 1 (Resumption.response true true 200 "OK".toList),
         chunkInput 1 "event: done\ndata: \x7b\x7d\n\n".toList,
         Input.transport 1 Resumption.done,
         Input.transport 0 (Resumption.rejected "Failed to fetch".toList)]).client.statusText
        = "Done"
      ∧ (run samplePlatform initialWorld
        [Input.clickSend sampleFields, Input.keydown true "Enter" sampleFields,
         Input.transport 1 (Resumption.response true true 200 "OK".toList),
         chunkInput 1 "event: done\ndata: \x7b\x7d\n\n".toList,
         Input.transport 1 Resumption.done,
         Input.transport 0 (Resumption.rejected "Failed to fetch".toList)]).client.messages
        = [{ role := Role.user, content := "hi".toList },
           { role := Role.assistant, content := [] },
           { role := Role.user, content := "hi".toList },
           { role := Role.assistant, content := [] }] := by
  decide

end SseClient
